import Mathlib

/-!
Verification development for the `fta` technical-indicator library.

The indicator functions (`fta.go` and friends) are embedded shallowly.
Machine floating-point values are modelled by `FV`: an exact rational
together with the IEEE special values `nan`, `+inf`, `-inf` (signed
zero is not modelled; every division by zero appearing in the claims
arises from a nonnegative numerator and a `+0` divisor, where the
unsigned model agrees with IEEE).  The underlying time-series engine
(`github.com/WinPooh32/series`) is an external collaborator of the
library; its operations are modelled from the specification's contract
and are marked `Modelled from the spec:` below.
-/

namespace Fta

/-- Model of a floating-point value: an exact rational or a special value. -/
inductive FV : Type where
  | nan : FV
  | pinf : FV
  | ninf : FV
  | fin : ℚ → FV
deriving DecidableEq

namespace FV

/-- Is this value NaN? -/
def isNan : FV → Bool
  | nan => true
  | _ => false

/-- IEEE negation. -/
def neg : FV → FV
  | nan => nan
  | pinf => ninf
  | ninf => pinf
  | fin q => fin (-q)

/-- IEEE addition (NaN absorbing, `+inf + -inf = NaN`). -/
def add : FV → FV → FV
  | nan, _ => nan
  | _, nan => nan
  | pinf, ninf => nan
  | ninf, pinf => nan
  | pinf, _ => pinf
  | ninf, _ => ninf
  | fin _, pinf => pinf
  | fin _, ninf => ninf
  | fin a, fin b => fin (a + b)

/-- IEEE subtraction. -/
def sub (a b : FV) : FV := add a (neg b)

/-- IEEE multiplication (`inf * 0 = NaN`). -/
def mul : FV → FV → FV
  | nan, _ => nan
  | _, nan => nan
  | pinf, pinf => pinf
  | pinf, ninf => ninf
  | ninf, pinf => ninf
  | ninf, ninf => pinf
  | pinf, fin q => if q = 0 then nan else if 0 < q then pinf else ninf
  | ninf, fin q => if q = 0 then nan else if 0 < q then ninf else pinf
  | fin q, pinf => if q = 0 then nan else if 0 < q then pinf else ninf
  | fin q, ninf => if q = 0 then nan else if 0 < q then ninf else pinf
  | fin a, fin b => fin (a * b)

/-- IEEE division (`inf/inf = NaN`, `x/inf = 0`, `q/0` is a signed
infinity for `q ≠ 0` and NaN for `0/0`; the dividing zero is treated
as `+0`, which matches every call site relevant to the claims). -/
def div : FV → FV → FV
  | nan, _ => nan
  | _, nan => nan
  | pinf, pinf => nan
  | pinf, ninf => nan
  | ninf, pinf => nan
  | ninf, ninf => nan
  | pinf, fin q => if q < 0 then ninf else pinf
  | ninf, fin q => if q < 0 then pinf else ninf
  | fin _, pinf => fin 0
  | fin _, ninf => fin 0
  | fin a, fin b =>
      if b = 0 then (if a = 0 then nan else if 0 < a then pinf else ninf)
      else fin (a / b)

/-- IEEE strict less-than (false whenever either side is NaN). -/
def lt : FV → FV → Bool
  | nan, _ => false
  | _, nan => false
  | ninf, ninf => false
  | ninf, _ => true
  | _, ninf => false
  | pinf, _ => false
  | fin _, pinf => true
  | fin a, fin b => decide (a < b)

/-- IEEE less-or-equal (false whenever either side is NaN). -/
def le : FV → FV → Bool
  | nan, _ => false
  | _, nan => false
  | ninf, _ => true
  | _, ninf => false
  | _, pinf => true
  | pinf, fin _ => false
  | fin a, fin b => decide (a ≤ b)

/-- IEEE absolute value. -/
def absv : FV → FV
  | nan => nan
  | pinf => pinf
  | ninf => pinf
  | fin q => fin |q|

/-- Exact square root on ratios of perfect squares (the model of `sqrt`
is only ever evaluated on perfect squares in this development). -/
def ratSqrt (q : ℚ) : ℚ := (Nat.sqrt q.num.toNat : ℚ) / (Nat.sqrt q.den : ℚ)

/-- IEEE square root (NaN on negative inputs). -/
def sqrtv : FV → FV
  | nan => nan
  | pinf => pinf
  | ninf => nan
  | fin q => if q < 0 then nan else fin (ratSqrt q)

/-- `math.Min` as used by Go: NaN if either argument is NaN. -/
def minv (a b : FV) : FV :=
  if a.isNan || b.isNan then nan else if le a b then a else b

end FV

open FV

/-! ### Elementwise series operations.

Modelled from the spec: the external TimeSeries engine supplies
positional elementwise `+ - * /`, scalar variants, `abs`, `log`,
`cumulativeSum`, `fillna(value)`, `diff(series, lag)` and
`shift(series, lag)` (the first `lag` output bars of `diff`/`shift`
are NaN).  Binary operations require equal lengths (a caller
precondition); they are modelled by positional zipping. -/

def zipAdd (a b : List FV) : List FV := List.zipWith FV.add a b

def zipSub (a b : List FV) : List FV := List.zipWith FV.sub a b

def zipMul (a b : List FV) : List FV := List.zipWith FV.mul a b

def zipDiv (a b : List FV) : List FV := List.zipWith FV.div a b

def addScalar (xs : List FV) (c : FV) : List FV := xs.map (fun v => FV.add v c)

def subScalar (xs : List FV) (c : FV) : List FV := xs.map (fun v => FV.sub v c)

def mulScalar (xs : List FV) (c : FV) : List FV := xs.map (fun v => FV.mul v c)

def divScalar (xs : List FV) (c : FV) : List FV := xs.map (fun v => FV.div v c)

def absAll (xs : List FV) : List FV := xs.map FV.absv

def fillna (xs : List FV) (c : FV) : List FV :=
  xs.map (fun v => if v.isNan then c else v)

/-- `diff(series, lag)`: positionally `x[i] - x[i-lag]`, NaN for the
first `lag` bars (subtracting the NaN-padded shift). -/
def diffL (lag : ℕ) (xs : List FV) : List FV :=
  List.zipWith FV.sub xs (List.replicate lag FV.nan ++ xs)

/-- `shift(series, lag)`: the value `lag` bars earlier, NaN for the
first `lag` bars. -/
def shiftL (lag : ℕ) (xs : List FV) : List FV :=
  (List.replicate lag FV.nan ++ xs).take xs.length

def cumsum (xs : List FV) : List FV :=
  (xs.foldl (fun (st : FV × List FV) v =>
    let r := FV.add st.1 v
    (r, r :: st.2)) (FV.fin 0, [])).2.reverse

def sumL (xs : List FV) : FV := xs.foldl FV.add (FV.fin 0)

/-! ### Rolling-window reductions.

Modelled from the spec: `rollingWindow(series, period)` reduces each
trailing window; windows narrower than `period` at the sequence start
still produce a value computed over the available shorter window. -/

/-- The trailing window of width at most `p` ending at position `i`. -/
def windowAt (p i : ℕ) (xs : List FV) : List FV :=
  (xs.take (i + 1)).drop (i + 1 - p)

def rollMean (p : ℕ) (xs : List FV) : List FV :=
  (List.range xs.length).map (fun i =>
    FV.div (sumL (windowAt p i xs)) (FV.fin ((windowAt p i xs).length : ℚ)))

def rollMin (p : ℕ) (xs : List FV) : List FV :=
  (List.range xs.length).map (fun i =>
    match windowAt p i xs with
    | [] => FV.nan
    | h :: t => t.foldl FV.minv h)

def rollMax (p : ℕ) (xs : List FV) : List FV :=
  (List.range xs.length).map (fun i =>
    match windowAt p i xs with
    | [] => FV.nan
    | h :: t => t.foldl (fun a b => FV.neg (FV.minv (FV.neg a) (FV.neg b))) h)

/-- Modelled from the spec: rolling standard deviation of the series
about the supplied moving average, with `n - ddof` in the denominator. -/
def rollStd (p : ℕ) (ddof : ℕ) (ma xs : List FV) : List FV :=
  (List.range xs.length).map (fun i =>
    let w := windowAt p i xs
    let m := ma.getD i FV.nan
    let sq := sumL (w.map (fun x => FV.mul (FV.sub x m) (FV.sub x m)))
    FV.sqrtv (FV.div sq (FV.fin ((w.length : ℚ) - (ddof : ℚ)))))

/-! ### Exponentially weighted recursion.

Modelled from the spec: `exponentialRecursion(series, {alpha|span},
value, adjust, bias)`; `adjust=false, bias=true` reproduces Wilder's
cumulative-weight-normalized recursion, other combinations use the
standard EWMA recursions.  NaN observations are skipped (the output
is NaN until the first valid observation; afterwards a NaN input bar
emits the decayed running mean), as required for the documented
`EWM(...).Mean().Fillna(0)` pipelines to produce nonzero output. -/

def spanToAlpha (s : ℚ) : ℚ := 2 / (s + 1)

/-- `adjust = true`: decayed-weight normalized mean. -/
def ewmAdjGo (a : ℚ) : FV → ℚ → List FV → List FV
  | _, _, [] => []
  | num, den, x :: xs =>
    let num' := FV.add (FV.mul (FV.fin (1 - a)) num) (if x.isNan then FV.fin 0 else x)
    let den' := (1 - a) * den + (if x.isNan then 0 else 1)
    (if den' = 0 then FV.nan else FV.div num' (FV.fin den')) :: ewmAdjGo a num' den' xs

/-- `adjust = false, bias = true`: Wilder's recursion, a zero-seeded
plain recursion normalized by the cumulative weight sum. -/
def ewmWilderGo (a : ℚ) : FV → ℚ → List FV → List FV
  | _, _, [] => []
  | r, w, x :: xs =>
    let r' := FV.add (FV.mul (FV.fin (1 - a)) r)
      (FV.mul (FV.fin a) (if x.isNan then FV.fin 0 else x))
    let w' := (1 - a) * w + (if x.isNan then 0 else a)
    (if w' = 0 then FV.nan else FV.div r' (FV.fin w')) :: ewmWilderGo a r' w' xs

/-- `adjust = false, bias = false`: plain recursion seeded at the first
valid observation. -/
def ewmPlainGo (a : ℚ) : Option FV → List FV → List FV
  | _, [] => []
  | none, x :: xs =>
    if x.isNan then FV.nan :: ewmPlainGo a none xs
    else x :: ewmPlainGo a (some x) xs
  | some m, x :: xs =>
    if x.isNan then m :: ewmPlainGo a (some m) xs
    else
      let m' := FV.add (FV.mul (FV.fin (1 - a)) m) (FV.mul (FV.fin a) x)
      m' :: ewmPlainGo a (some m') xs

def ewmMean (a : ℚ) (adjust bias : Bool) (xs : List FV) : List FV :=
  if adjust then ewmAdjGo a (FV.fin 0) 0 xs
  else if bias then ewmWilderGo a (FV.fin 0) 0 xs
  else ewmPlainGo a none xs

/-! ### Indicators (embedded from the source). -/

/-- `SMA(column, period)`: rolling mean. -/
def SMA (column : List FV) (period : ℕ) : List FV := rollMean period column

/-- `EMA(column, period, adjust)`: exponential recursion parametrized
by span (`series.AlphaSpan`). -/
def EMA (column : List FV) (period : ℕ) (adjust : Bool) : List FV :=
  ewmMean (spanToAlpha (period : ℚ)) adjust false column

/-- `MACD(column, periodFast, periodSlow, signal, adjust)`. -/
def MACD (column : List FV) (periodFast periodSlow signal : ℚ) (adjust : Bool) :
    List FV × List FV :=
  let emaFast := ewmMean (spanToAlpha periodFast) adjust false column
  let emaSlow := ewmMean (spanToAlpha periodSlow) adjust false column
  let macd := zipSub emaFast emaSlow
  (macd, ewmMean (spanToAlpha signal) adjust false macd)

/-- `BBANDS(column, ma, period, stdMultiplier)`: returns
`(upper, lower) = (ma + std, ma - std)` where `std` is the rolling
standard deviation about `ma` (ddof 1), NaN-filled with 0 and scaled. -/
def BBANDS (column ma : List FV) (period : ℕ) (stdMultiplier : ℚ) :
    List FV × List FV :=
  let std := mulScalar (fillna (rollStd period 1 ma column) (FV.fin 0))
    (FV.fin stdMultiplier)
  (zipAdd ma std, zipSub ma std)

/-- `PercentB(column, ma, period, stdMultiplier)`.  The source binds
`bbLower, bbUpper := BBANDS(...)`, but `BBANDS` returns
`(upper, lower)`, so `bbLower` below actually holds the upper band and
`bbUpper` the lower band, exactly as in the Go code. -/
def PercentB (column ma : List FV) (period : ℕ) (stdMultiplier : ℚ) : List FV :=
  let p := BBANDS column ma period stdMultiplier
  let bbLower := p.1
  let bbUpper := p.2
  zipDiv (zipSub column bbLower) (zipSub bbUpper bbLower)

/-- The spec's formula for %b, written from the spec's words:
`(series - lower)/(upper - lower)` with `upper`/`lower` the bands
returned by `BBANDS`. -/
def PercentBSpec (column ma : List FV) (period : ℕ) (stdMultiplier : ℚ) : List FV :=
  let p := BBANDS column ma period stdMultiplier
  let upper := p.1
  let lower := p.2
  zipDiv (zipSub column lower) (zipSub upper lower)

/-- The clamp applied in place to the `up` diff values: negative
entries become 0 (`if v < 0 { upValues[i] = 0 }`; NaN is kept, since
the float comparison is false on NaN). -/
def clampUp (v : FV) : FV := if FV.lt v (FV.fin 0) then FV.fin 0 else v

/-- The clamp applied in place to the `down` diff values: positive
entries become 0. -/
def clampDown (v : FV) : FV := if FV.lt (FV.fin 0) v then FV.fin 0 else v

/-- The final RSI map `v ↦ 100 - 100/(1 + v)`. -/
def rsiApply (v : FV) : FV :=
  FV.sub (FV.fin 100) (FV.div (FV.fin 100) (FV.add (FV.fin 1) v))

/-- `RSI(column, period, adjust)`: clamp the one-bar diffs into gains
and losses, smooth each with the `bias = true` exponential recursion at
`alpha = 1/period`, fill the NaNs of `RS = gain/loss` with 0 and map
through `100 - 100/(1+RS)`. -/
def RSI (column : List FV) (period : ℕ) (adjust : Bool) : List FV :=
  let up := diffL 1 column
  let down := up
  let upC := up.map clampUp
  let downC := down.map clampDown
  let alphaParam : ℚ := 1 / (period : ℚ)
  let gain := ewmMean alphaParam adjust true upC
  let loss := ewmMean alphaParam adjust true (absAll downC)
  let rs := fillna (zipDiv gain loss) (FV.fin 0)
  rs.map rsiApply

/-! ### WMA. -/

/-- The full-period weight vector `1..period` truncated to its first
`n` entries, as produced by `weights.Slice(0, n)` over the backing
array written by `WMA`. -/
def wmaWeights (n : ℕ) : List FV := (List.range n).map (fun j => FV.fin ((j : ℚ) + 1))

/-- The fixed full-period divisor `period*(period+1)/2`. -/
def wmaDenom (period : ℕ) : ℚ := ((period : ℚ) * ((period : ℚ) + 1)) / 2

/-- One evaluation of the rolling closure of `WMA`, carrying the length
of the captured `weights` slice across calls.  The closure truncates
`weights` to the window size whenever the window is short; elementwise
`Mul` requires equal lengths (a precondition of the engine's
arithmetic), so a window whose length differs from the current weights
length has no defined value (`none`, the Go call panics). -/
def wmaGo (period : ℕ) (d : ℚ) : ℕ → List (List FV) → Option (List FV)
  | _, [] => some []
  | len, w :: ws =>
    let len' := if w.length < period then w.length else len
    if w.length = len' then
      let v := FV.div (sumL (zipMul w (wmaWeights len'))) (FV.fin d)
      (wmaGo period d len' ws).map (fun r => v :: r)
    else none

/-- `WMA(column, period)`: linearly weighted rolling mean via
`Rolling(period).Apply` with the stateful weights closure. -/
def WMA (column : List FV) (period : ℕ) : Option (List FV) :=
  wmaGo period (wmaDenom period) period
    ((List.range column.length).map (fun i => windowAt period i column))

/-! ### PSAR.

The per-invocation run state and bar loop of `PSAR`, embedded from the
source.  The loop involves no division and no NaN source, so its values
are idealized as exact rationals; the IEEE-valued rendering used by the
allocation model appears further below as `psarValsFV`. -/

/-- PSAR run state: current trend, acceleration factor, running
highest high `hp` and running lowest low `lp`. -/
structure PState where
  bull : Bool
  af : ℚ
  hp : ℚ
  lp : ℚ
deriving DecidableEq

/-- Step 1 of a PSAR bar: the projected candidate SAR. -/
def psarCand (s : PState) (prev : ℚ) : ℚ :=
  if s.bull then prev + s.af * (s.hp - prev) else prev + s.af * (s.lp - prev)

/-- One full bar `i ≥ 2` of the PSAR loop.  Arguments: the bar's high
`hi` and low `lo`, the previous lows `lo1 = low[i-1]`, `lo2 = low[i-2]`
and highs `hi1`, `hi2`, the previous SAR `prev = psar[i-1]`.
Returns the state after the bar and the emitted `psar[i]`. -/
def psarStep (iaf maxaf hi lo lo1 lo2 hi1 hi2 prev : ℚ) (s : PState) : PState × ℚ :=
  let cand := psarCand s prev
  if s.bull then
    if lo < cand then
      -- reversal Bull → Bear: psar[i] = hp, lp := low[i], af := iaf
      (⟨false, iaf, s.hp, lo⟩, s.hp)
    else
      let hpaf := if s.hp < hi then (hi, min (s.af + iaf) maxaf) else (s.hp, s.af)
      let v1 := if lo1 < cand then lo1 else cand
      let v2 := if lo2 < v1 then lo2 else v1
      (⟨true, hpaf.2, hpaf.1, s.lp⟩, v2)
  else
    if cand < hi then
      -- reversal Bear → Bull: psar[i] = lp, hp := high[i], af := iaf
      (⟨true, iaf, hi, s.lp⟩, s.lp)
    else
      let lpaf := if lo < s.lp then (lo, min (s.af + iaf) maxaf) else (s.lp, s.af)
      let v1 := if cand < hi1 then hi1 else cand
      let v2 := if v1 < hi2 then hi2 else v1
      (⟨false, lpaf.2, s.hp, lpaf.1⟩, v2)

/-- The step at bar `i`, reading the bar data out of the high/low
series (the loop accesses `high[i]`, `low[i]`, `low[i-1]`, `low[i-2]`,
`high[i-1]`, `high[i-2]`; all are in bounds for `2 ≤ i < length` on
well-formed input). -/
def psarNext (high low : List ℚ) (iaf maxaf : ℚ) (i : ℕ) (sp : PState × ℚ) :
    PState × ℚ :=
  psarStep iaf maxaf (high.getD i 0) (low.getD i 0) (low.getD (i - 1) 0)
    (low.getD (i - 2) 0) (high.getD (i - 1) 0) (high.getD (i - 2) 0) sp.2 sp.1

/-- Run `k` bars of the PSAR loop starting at bar `i`, emitting the
trend flag after each bar together with the emitted SAR value. -/
def psarGo (high low : List ℚ) (iaf maxaf : ℚ) : ℕ → ℕ → PState × ℚ → List (Bool × ℚ)
  | 0, _, _ => []
  | k + 1, i, sp =>
    let sp' := psarNext high low iaf maxaf i sp
    (sp'.1.bull, sp'.2) :: psarGo high low iaf maxaf k (i + 1) sp'

/-- The initial run state: trend Bull, `af = iaf`, `hp = high[0]`,
`lp = low[0]`, with `prev = psar[1] = close[1]`. -/
def psarInit (high low close : List ℚ) (iaf : ℚ) : PState × ℚ :=
  (⟨true, iaf, high.getD 0 0, low.getD 0 0⟩, close.getD 1 0)

/-- Iterate `psarNext` for `j` bars starting at bar `i`. -/
def psarIterN (high low : List ℚ) (iaf maxaf : ℚ) : ℕ → ℕ → PState × ℚ → PState × ℚ
  | 0, _, sp => sp
  | j + 1, i, sp => psarIterN high low iaf maxaf j (i + 1) (psarNext high low iaf maxaf i sp)

/-- The run state (and previous SAR) immediately before bar `i ≥ 2` of
the loop. -/
def psarStateAt (high low close : List ℚ) (iaf maxaf : ℚ) (i : ℕ) : PState × ℚ :=
  psarIterN high low iaf maxaf (i - 2) 2 (psarInit high low close iaf)

/-- The trend of the state machine after processing bar `i ≥ 2`. -/
def psarBullAfter (high low close : List ℚ) (iaf maxaf : ℚ) (i : ℕ) : Bool :=
  (psarNext high low iaf maxaf i (psarStateAt high low close iaf maxaf i)).1.bull

/-- `PSAR(high, low, close, iaf, maxaf)`: the `psar`, `bull` and `bear`
output series.  The seed bars `psar[i] = close[i]` for `i < 2` come
from the initial copy of `close`; `bull`/`bear` start as zero arrays
and each bar writes its SAR value into the side of the current trend.
The source reads `highValues[0]` and `lowValues[0]` before the loop,
which panics (`none`) when the series are empty. -/
def PSAR (high low close : List ℚ) (iaf maxaf : ℚ) :
    Option (List ℚ × List ℚ × List ℚ) :=
  match high, low with
  | _ :: _, _ :: _ =>
    let n := close.length
    let em := psarGo high low iaf maxaf (n - 2) 2 (psarInit high low close iaf)
    some (close.take 2 ++ em.map Prod.snd,
      List.replicate (min 2 n) 0 ++ em.map (fun p => if p.1 then p.2 else 0),
      List.replicate (min 2 n) 0 ++ em.map (fun p => if p.1 then 0 else p.2))
  | _, _ => none

/-! ### OHLCV resampling.

Modelled from the spec: `resample(series, newFrequency, originEpoch)`
buckets timestamps into `floor((t - originEpoch)/newFrequency)` groups
and reduces each bucket with the named aggregator; `series.OriginEpoch`
is the Unix epoch origin `0`.  A series is an ordered list of
`(timestamp, value)` pairs together with its grid frequency; resampled
output carries the new frequency and bucket-start timestamps. -/

/-- A time series: frequency and `(timestamp, value)` items. -/
structure SData where
  freq : ℤ
  items : List (ℤ × ℚ)
deriving DecidableEq

/-- The bucket index of timestamp `t` (floor division). -/
def bkey (interval origin t : ℤ) : ℤ := (t - origin).fdiv interval

/-- Group consecutive items sharing a bucket key (timestamps are
strictly increasing, so equal-key items are consecutive). -/
def bucketGo (interval origin : ℤ) (k : ℤ) (acc : List ℚ) :
    List (ℤ × ℚ) → List (ℤ × List ℚ)
  | [] => [(k, acc.reverse)]
  | (t, v) :: rest =>
    if bkey interval origin t = k then bucketGo interval origin k (v :: acc) rest
    else (k, acc.reverse) :: bucketGo interval origin (bkey interval origin t) [v] rest

/-- Resample a series with a bucket aggregator. -/
def resampleWith (interval origin : ℤ) (agg : List ℚ → ℚ) (s : SData) : SData :=
  { freq := interval
    items :=
      match s.items with
      | [] => []
      | (t, v) :: rest =>
        (bucketGo interval origin (bkey interval origin t) [v] rest).map
          (fun g => (origin + g.1 * interval, agg g.2)) }

def aggFirst (l : List ℚ) : ℚ := l.headD 0

def aggLast (l : List ℚ) : ℚ := l.getLastD 0

def aggMax : List ℚ → ℚ
  | [] => 0
  | h :: t => t.foldl max h

def aggMin : List ℚ → ℚ
  | [] => 0
  | h :: t => t.foldl min h

def aggSum (l : List ℚ) : ℚ := l.foldl (· + ·) 0

/-- The OHLCV frame: five series sharing one time index. -/
structure OHLCV where
  Open : SData
  High : SData
  Low : SData
  Close : SData
  Volume : SData
deriving DecidableEq

/-- `OHLCV.Resample(interval)`: `Open → first`, `High → max`,
`Low → min`, `Close → last`, `Volume → sum`, all bucketed at the Unix
epoch origin (the source first `Clone`s the frame, which is the
identity on values). -/
def OHLCV.Resample (ohlcv : OHLCV) (interval : ℤ) : OHLCV :=
  { Open := resampleWith interval 0 aggFirst ohlcv.Open
    High := resampleWith interval 0 aggMax ohlcv.High
    Low := resampleWith interval 0 aggMin ohlcv.Low
    Close := resampleWith interval 0 aggLast ohlcv.Close
    Volume := resampleWith interval 0 aggSum ohlcv.Volume }

/-- A series sits on the fixed grid of frequency `f` with strictly
increasing timestamps. -/
def onGrid (f : ℤ) (s : SData) : Prop :=
  s.freq = f ∧ (∀ tv ∈ s.items, ∃ k : ℤ, tv.1 = k * f) ∧
    List.Chain' (fun a b : ℤ × ℚ => a.1 < b.1) s.items

/-! ### Remaining value-level helpers used by the allocation model. -/

/-- `math.Max`-style choice (NaN if either argument is NaN). -/
def FV.maxv (a b : FV) : FV :=
  if a.isNan || b.isNan then FV.nan else if FV.le a b then b else a

/-- Natural logarithm on the IEEE values.  The logarithm of a positive
rational is irrational, so its finite values are supplied by an
arbitrary value model `rlog`; every theorem below that touches `log`
holds for every choice of `rlog`. -/
def FV.logF (rlog : ℚ → ℚ) : FV → FV
  | FV.nan => FV.nan
  | FV.pinf => FV.pinf
  | FV.ninf => FV.nan
  | FV.fin q => if q < 0 then FV.nan else if q = 0 then FV.ninf else FV.fin (rlog q)

/-- `copysign(1, x)`: the sign function used by VZO (NaN keeps NaN's
payload sign bit; modelled as +1, which only affects NaN inputs). -/
def FV.signv : FV → FV
  | FV.nan => FV.nan
  | FV.pinf => FV.fin 1
  | FV.ninf => FV.fin (-1)
  | FV.fin q => if q < 0 then FV.fin (-1) else FV.fin 1

/-- Global minimum of a series (`series.Min`). -/
def listMin : List FV → FV
  | [] => FV.nan
  | h :: t => t.foldl FV.minv h

/-- Global maximum of a series (`series.Max`). -/
def listMax : List FV → FV
  | [] => FV.nan
  | h :: t => t.foldl FV.maxv h

/-- The CRSI streak update (the stateful closure passed to `Apply`). -/
def streakNext (streak : ℚ) (v : FV) : ℚ :=
  if FV.lt (FV.fin 0) v then (if streak ≤ 0 then 1 else streak + 1)
  else if FV.lt v (FV.fin 0) then (if 0 ≤ streak then -1 else streak - 1)
  else 0

/-- The streak series: a strictly sequential left-to-right scan. -/
def streakMap (xs : List FV) : List FV :=
  (xs.foldl (fun (st : ℚ × List FV) v =>
    let s' := streakNext st.1 v
    (s', FV.fin s' :: st.2)) (0, [])).2.reverse

/-- PSAR run state over IEEE values (the acceleration factor is a pure
scalar, never read from the data). -/
structure PStateF where
  bull : Bool
  af : ℚ
  hp : FV
  lp : FV

/-- One PSAR bar over IEEE values (mirror of `psarStep`). -/
def psarStepF (iaf maxaf : ℚ) (hi lo lo1 lo2 hi1 hi2 prev : FV) (s : PStateF) :
    PStateF × FV :=
  let cand :=
    if s.bull then FV.add prev (FV.mul (FV.fin s.af) (FV.sub s.hp prev))
    else FV.add prev (FV.mul (FV.fin s.af) (FV.sub s.lp prev))
  if s.bull then
    if FV.lt lo cand then (⟨false, iaf, s.hp, lo⟩, s.hp)
    else
      let hpaf := if FV.lt s.hp hi then (hi, min (s.af + iaf) maxaf) else (s.hp, s.af)
      let v1 := if FV.lt lo1 cand then lo1 else cand
      let v2 := if FV.lt lo2 v1 then lo2 else v1
      (⟨true, hpaf.2, hpaf.1, s.lp⟩, v2)
  else
    if FV.lt cand hi then (⟨true, iaf, hi, s.lp⟩, s.lp)
    else
      let lpaf := if FV.lt lo s.lp then (lo, min (s.af + iaf) maxaf) else (s.lp, s.af)
      let v1 := if FV.lt cand hi1 then hi1 else cand
      let v2 := if FV.lt v1 hi2 then hi2 else v1
      (⟨false, lpaf.2, s.hp, lpaf.1⟩, v2)

/-- PSAR loop over IEEE values (mirror of `psarGo`). -/
def psarGoF (high low : List FV) (iaf maxaf : ℚ) :
    ℕ → ℕ → PStateF × FV → List (Bool × FV)
  | 0, _, _ => []
  | k + 1, i, sp =>
    let sp' := psarStepF iaf maxaf (high.getD i FV.nan) (low.getD i FV.nan)
      (low.getD (i - 1) FV.nan) (low.getD (i - 2) FV.nan)
      (high.getD (i - 1) FV.nan) (high.getD (i - 2) FV.nan) sp.2 sp.1
    (sp'.1.bull, sp'.2) :: psarGoF high low iaf maxaf k (i + 1) sp'

/-- PSAR output values over IEEE values (mirror of `PSAR`; out-of-range
index reads are settled separately against the rational rendering). -/
def psarValsF (high low close : List FV) (iaf maxaf : ℚ) :
    List FV × List FV × List FV :=
  let n := close.length
  let em := psarGoF high low iaf maxaf (n - 2) 2
    (⟨true, iaf, high.getD 0 FV.nan, low.getD 0 FV.nan⟩, close.getD 1 FV.nan)
  (close.take 2 ++ em.map Prod.snd,
    List.replicate (min 2 n) (FV.fin 0) ++
      em.map (fun p => if p.1 then p.2 else FV.fin 0),
    List.replicate (min 2 n) (FV.fin 0) ++
      em.map (fun p => if p.1 then FV.fin 0 else p.2))

/-! ### The allocation model.

Modelled from the spec: series values live in caller-visible buffers;
"every transformation returns a new series ... functions that clone
explicitly copy before in-place edits".  Windowed reductions, the
exponential recursions, `Diff`, `Shift`, `Cumsum` and `Clone` allocate
a fresh buffer; elementwise arithmetic, scalar variants, `Apply`,
`Fillna`, `Abs` and `Log` write the receiver's buffer in place and
return it (the discipline under which every `Clone` in the source is
load-bearing).  A store is the list of live buffers; a handle is an
index into it. -/

abbrev Store := List (List FV)

def sread (st : Store) (h : ℕ) : List FV := st.getD h []

def salloc (st : Store) (v : List FV) : Store × ℕ := (st ++ [v], st.length)

def swrite (st : Store) (h : ℕ) (v : List FV) : Store := st.set h v

def hClone (h : ℕ) (st : Store) : Store × ℕ := salloc st (sread st h)

def hDiff (h lag : ℕ) (st : Store) : Store × ℕ := salloc st (diffL lag (sread st h))

def hShift (h lag : ℕ) (st : Store) : Store × ℕ := salloc st (shiftL lag (sread st h))

def hRollMean (h p : ℕ) (st : Store) : Store × ℕ := salloc st (rollMean p (sread st h))

def hRollMin (h p : ℕ) (st : Store) : Store × ℕ := salloc st (rollMin p (sread st h))

def hRollMax (h p : ℕ) (st : Store) : Store × ℕ := salloc st (rollMax p (sread st h))

def hRollStd (h hma p ddof : ℕ) (st : Store) : Store × ℕ :=
  salloc st (rollStd p ddof (sread st hma) (sread st h))

def hEWMMean (h : ℕ) (a : ℚ) (adjust bias : Bool) (st : Store) : Store × ℕ :=
  salloc st (ewmMean a adjust bias (sread st h))

def hCumsum (h : ℕ) (st : Store) : Store × ℕ := salloc st (cumsum (sread st h))

def hAdd (h1 h2 : ℕ) (st : Store) : Store × ℕ :=
  (swrite st h1 (zipAdd (sread st h1) (sread st h2)), h1)

def hSub (h1 h2 : ℕ) (st : Store) : Store × ℕ :=
  (swrite st h1 (zipSub (sread st h1) (sread st h2)), h1)

def hMul (h1 h2 : ℕ) (st : Store) : Store × ℕ :=
  (swrite st h1 (zipMul (sread st h1) (sread st h2)), h1)

def hDivB (h1 h2 : ℕ) (st : Store) : Store × ℕ :=
  (swrite st h1 (zipDiv (sread st h1) (sread st h2)), h1)

def hAddScalar (h : ℕ) (c : FV) (st : Store) : Store × ℕ :=
  (swrite st h (addScalar (sread st h) c), h)

def hSubScalar (h : ℕ) (c : FV) (st : Store) : Store × ℕ :=
  (swrite st h (subScalar (sread st h) c), h)

def hMulScalar (h : ℕ) (c : FV) (st : Store) : Store × ℕ :=
  (swrite st h (mulScalar (sread st h) c), h)

def hDivScalar (h : ℕ) (c : FV) (st : Store) : Store × ℕ :=
  (swrite st h (divScalar (sread st h) c), h)

def hApply (h : ℕ) (f : FV → FV) (st : Store) : Store × ℕ :=
  (swrite st h ((sread st h).map f), h)

def hApplyStreak (h : ℕ) (st : Store) : Store × ℕ :=
  (swrite st h (streakMap (sread st h)), h)

def hFillna (h : ℕ) (c : FV) (st : Store) : Store × ℕ :=
  (swrite st h (fillna (sread st h) c), h)

def hAbs (h : ℕ) (st : Store) : Store × ℕ :=
  (swrite st h (absAll (sread st h)), h)

def hLog (h : ℕ) (rlog : ℚ → ℚ) (st : Store) : Store × ℕ :=
  (swrite st h ((sread st h).map (FV.logF rlog)), h)

/-! Transcriptions of the exported indicators over the store, one
engine call per step, in the source's evaluation order. -/

def SMAh (column period : ℕ) (st : Store) : Store × ℕ := hRollMean column period st

def ROCh (column period : ℕ) (st : Store) : Store × ℕ :=
  let s1 := hDiff column period st
  let s2 := hShift column period s1.1
  let s3 := hDivB s1.2 s2.2 s2.1
  hMulScalar s3.2 (FV.fin 100) s3.1

def KSTh (column r1 r2 r3 r4 : ℕ) (st : Store) : Store × (ℕ × ℕ) :=
  let a1 := ROCh column r1 st
  let b1 := hRollMean a1.2 10 a1.1
  let a2 := ROCh column r2 b1.1
  let b2 := hRollMean a2.2 10 a2.1
  let a3 := ROCh column r3 b2.1
  let b3 := hRollMean a3.2 10 a3.1
  let a4 := ROCh column r4 b3.1
  let b4 := hRollMean a4.2 10 a4.1
  let m2 := hMulScalar b2.2 (FV.fin 2) b4.1
  let k1 := hAdd b1.2 m2.2 m2.1
  let m3 := hMulScalar b3.2 (FV.fin 3) k1.1
  let k2 := hAdd k1.2 m3.2 m3.1
  let m4 := hMulScalar b4.2 (FV.fin 4) k2.1
  let k3 := hAdd k2.2 m4.2 m4.1
  let sig := hRollMean k3.2 10 k3.1
  (sig.1, (k3.2, sig.2))

def FISHh (rlog : ℚ → ℚ) (low high period : ℕ) (adjust : Bool) (st : Store) :
    Store × ℕ :=
  let c1 := hClone high st
  let m1 := hAdd c1.2 low c1.1
  let m2 := hMulScalar m1.2 (FV.fin (1/2)) m1.1
  let lo1 := hRollMin m2.2 period m2.1
  let hi1 := hRollMax m2.2 period lo1.1
  let t1 := hSub m2.2 lo1.2 hi1.1
  let t2 := hSub hi1.2 lo1.2 t1.1
  let r1 := hDivB t1.2 t2.2 t2.1
  let r2 := hMulScalar r1.2 (FV.fin 2) r1.1
  let r3 := hSubScalar r2.2 (FV.fin 1) r2.1
  let e1 := hEWMMean r3.2 (spanToAlpha 5) adjust false r3.1
  let f1 := hFillna e1.2 (FV.fin 0) e1.1
  let a1 := hClone f1.2 f1.1
  let a2 := hAddScalar a1.2 (FV.fin 1) a1.1
  let b1 := hMulScalar f1.2 (FV.fin (-1)) a2.1
  let b2 := hAddScalar b1.2 (FV.fin 1) b1.1
  let d1 := hDivB a2.2 b2.2 b2.1
  let l1 := hLog d1.2 rlog d1.1
  hEWMMean l1.2 (spanToAlpha 3) adjust false l1.1

def MACDh (column : ℕ) (periodFast periodSlow signal : ℚ) (adjust : Bool)
    (st : Store) : Store × (ℕ × ℕ) :=
  let ef := hEWMMean column (spanToAlpha periodFast) adjust false st
  let es := hEWMMean column (spanToAlpha periodSlow) adjust false ef.1
  let m := hSub ef.2 es.2 es.1
  let sig := hEWMMean m.2 (spanToAlpha signal) adjust false m.1
  (sig.1, (m.2, sig.2))

def BBANDSh (column ma period : ℕ) (stdMultiplier : ℚ) (st : Store) :
    Store × (ℕ × ℕ) :=
  let s1 := hRollStd column ma period 1 st
  let s2 := hFillna s1.2 (FV.fin 0) s1.1
  let s3 := hMulScalar s2.2 (FV.fin stdMultiplier) s2.1
  let u1 := hClone ma s3.1
  let u2 := hAdd u1.2 s3.2 u1.1
  let l1 := hClone ma u2.1
  let l2 := hSub l1.2 s3.2 l1.1
  (l2.1, (u2.2, l2.2))

def PercentBh (column ma period : ℕ) (stdMultiplier : ℚ) (st : Store) :
    Store × ℕ :=
  let bb := BBANDSh column ma period stdMultiplier st
  let bbLower := bb.2.1
  let bbUpper := bb.2.2
  let c1 := hClone column bb.1
  let c2 := hSub c1.2 bbLower c1.1
  let t1 := hSub bbUpper bbLower c2.1
  hDivB c2.2 t1.2 t1.1

def RSIh (column period : ℕ) (adjust : Bool) (st : Store) : Store × ℕ :=
  let c1 := hClone column st
  let up := hDiff c1.2 1 c1.1
  let dn := hClone up.2 up.1
  let u2 := hApply up.2 clampUp dn.1
  let d2 := hApply dn.2 clampDown u2.1
  let g := hEWMMean u2.2 (1 / (period : ℚ)) adjust true d2.1
  let ab := hAbs d2.2 g.1
  let l := hEWMMean ab.2 (1 / (period : ℚ)) adjust true ab.1
  let rs := hDivB g.2 l.2 l.1
  let rf := hFillna rs.2 (FV.fin 0) rs.1
  hApply rf.2 rsiApply rf.1

def CRSIh (close period periodUpDown periodRoc : ℕ) (adjust : Bool) (st : Store) :
    Store × ℕ :=
  let c1 := hClone close st
  let d1 := hDiff c1.2 1 c1.1
  let ud := hApplyStreak d1.2 d1.1
  let r1 := RSIh c1.2 period adjust ud.1
  let r2 := RSIh ud.2 periodUpDown adjust r1.1
  let ro := ROCh c1.2 periodRoc r2.1
  let rf := hFillna ro.2 (FV.fin 0) ro.1
  let a1 := hAdd r1.2 r2.2 rf.1
  let a2 := hAdd a1.2 rf.2 a1.1
  hDivScalar a2.2 (FV.fin 3) a2.1

def VZOh (price volume period : ℕ) (adjust : Bool) (st : Store) : Store × ℕ :=
  let c1 := hClone price st
  let d1 := hDiff c1.2 1 c1.1
  let s1 := hApply d1.2 FV.signv d1.1
  let v1 := hMul s1.2 volume s1.1
  let dv := hEWMMean v1.2 (spanToAlpha (period : ℚ)) adjust false v1.1
  let vc := hClone volume dv.1
  let vm := hEWMMean vc.2 (spanToAlpha (period : ℚ)) adjust false vc.1
  let m1 := hMulScalar dv.2 (FV.fin 100) vm.1
  hDivB m1.2 vm.2 m1.1

def STOCHh (high low close period : ℕ) (st : Store) : Store × ℕ :=
  let c1 := hClone close st
  let hh := hRollMax high period c1.1
  let ll := hRollMin low period hh.1
  let s1 := hSub c1.2 ll.2 ll.1
  let t1 := hSub hh.2 ll.2 s1.1
  hDivB s1.2 t1.2 t1.1

def StochRSIh (price rsiPeriod stochPeriod : ℕ) (adjust : Bool) (st : Store) :
    Store × ℕ :=
  let r := RSIh price rsiPeriod adjust st
  let mn := listMin (sread r.1 r.2)
  let mx := listMax (sread r.1 r.2)
  let s1 := hSubScalar r.2 mn r.1
  let s2 := hDivScalar s1.2 (FV.sub mx mn) s1.1
  hRollMean s2.2 stochPeriod s2.1

def ADLh (high low close : ℕ) (st : Store) : Store × ℕ :=
  let a1 := hClone close st
  let a2 := hSub a1.2 low a1.1
  let b1 := hClone high a2.1
  let b2 := hSub b1.2 close b1.1
  let c1 := hClone high b2.1
  let c2 := hSub c1.2 low c1.1
  let m1 := hSub a2.2 b2.2 c2.1
  let m2 := hDivB m1.2 c2.2 m1.1
  hCumsum m2.2 m2.1

def CHAIKINh (high low close : ℕ) (adjust : Bool) (st : Store) : Store × ℕ :=
  let adl := ADLh high low close st
  let sh := hEWMMean adl.2 (spanToAlpha 3) adjust false adl.1
  let lg := hEWMMean adl.2 (spanToAlpha 10) adjust false sh.1
  hSub sh.2 lg.2 lg.1

def PSARh (high low close : ℕ) (iaf maxaf : ℚ) (st : Store) :
    Store × (ℕ × ℕ × ℕ) :=
  let vals := psarValsF (sread st high) (sread st low) (sread st close) iaf maxaf
  let p1 := salloc st vals.1
  let p2 := salloc p1.1 vals.2.1
  let p3 := salloc p2.1 vals.2.2
  (p3.1, (p1.2, p2.2, p3.2))

/-! ## Theorems. -/

lemma fv_mul_fin (x y : ℚ) : FV.mul (FV.fin x) (FV.fin y) = FV.fin (x * y) := rfl

lemma fv_add_fin (x y : ℚ) : FV.add (FV.fin x) (FV.fin y) = FV.fin (x + y) := rfl

lemma fv_sub_fin (x y : ℚ) : FV.sub (FV.fin x) (FV.fin y) = FV.fin (x - y) := by
  show FV.add (FV.fin x) (FV.fin (-y)) = FV.fin (x - y)
  rw [fv_add_fin]; ring_nf

lemma fv_div_fin_ne (x y : ℚ) (h : y ≠ 0) :
    FV.div (FV.fin x) (FV.fin y) = FV.fin (x / y) := by
  simp [FV.div, h]

lemma zipSub_const_le (c : ℚ) : ∀ (m k : ℕ), m ≤ k →
    List.zipWith FV.sub (List.replicate m (FV.fin c)) (List.replicate k (FV.fin c)) =
      List.replicate m (FV.fin 0) := by
  intro m
  induction m with
  | zero => intro k _; simp
  | succ j ih =>
    intro k hk
    match k, hk with
    | (i + 1), hk =>
      simp only [List.replicate_succ, List.zipWith_cons_cons]
      rw [fv_sub_fin, sub_self, ih i (by omega)]

lemma diff_const (c : ℚ) (m : ℕ) :
    diffL 1 (List.replicate (m + 1) (FV.fin c)) = FV.nan :: List.replicate m (FV.fin 0) := by
  unfold diffL
  rw [List.replicate_succ]
  show List.zipWith FV.sub (FV.fin c :: List.replicate m (FV.fin c))
    (FV.nan :: (FV.fin c :: List.replicate m (FV.fin c))) = _
  rw [List.zipWith_cons_cons]
  show FV.nan :: _ = _
  congr 1
  show List.zipWith FV.sub (List.replicate m (FV.fin c))
    (List.replicate (m + 1) (FV.fin c)) = _
  exact zipSub_const_le c m (m + 1) (by omega)

lemma ewmAdjGo_zeros (a : ℚ) (ha : a ≤ 1) (m : ℕ) :
    ∀ (den : ℚ), 0 ≤ den →
      ewmAdjGo a (FV.fin 0) den (List.replicate m (FV.fin 0)) =
        List.replicate m (FV.fin 0) := by
  induction m with
  | zero => intro den _; rfl
  | succ k ih =>
    intro den hden
    have hpos : (0:ℚ) < (1 - a) * den + 1 := by nlinarith
    rw [List.replicate_succ, ewmAdjGo]
    simp only [FV.isNan, Bool.false_eq_true, if_false]
    rw [fv_mul_fin, fv_add_fin, mul_zero, add_zero]
    rw [if_neg hpos.ne', fv_div_fin_ne _ _ hpos.ne', zero_div]
    congr 1
    exact ih _ hpos.le

lemma ewmWilderGo_zeros (a : ℚ) (ha0 : 0 < a) (ha1 : a ≤ 1) (m : ℕ) :
    ∀ (w : ℚ), 0 ≤ w →
      ewmWilderGo a (FV.fin 0) w (List.replicate m (FV.fin 0)) =
        List.replicate m (FV.fin 0) := by
  induction m with
  | zero => intro w _; rfl
  | succ k ih =>
    intro w hw
    have hpos : (0:ℚ) < (1 - a) * w + a := by nlinarith
    rw [List.replicate_succ, ewmWilderGo]
    simp only [FV.isNan, Bool.false_eq_true, if_false]
    rw [fv_mul_fin, fv_mul_fin, fv_add_fin, mul_zero, mul_zero, add_zero]
    rw [if_neg hpos.ne', fv_div_fin_ne _ _ hpos.ne', zero_div]
    congr 1
    exact ih _ hpos.le

lemma ewmConstHead (a : ℚ) (ha0 : 0 < a) (ha1 : a ≤ 1) (adjust : Bool) (m : ℕ) :
    ewmMean a adjust true (FV.nan :: List.replicate m (FV.fin 0)) =
      FV.nan :: List.replicate m (FV.fin 0) := by
  cases adjust with
  | true =>
    show ewmAdjGo a (FV.fin 0) 0 (FV.nan :: List.replicate m (FV.fin 0)) = _
    rw [ewmAdjGo]
    simp only [FV.isNan, if_true]
    rw [fv_mul_fin, fv_add_fin, mul_zero, add_zero]
    simp only [if_pos rfl]
    congr 1
    exact ewmAdjGo_zeros a ha1 m 0 le_rfl
  | false =>
    show ewmWilderGo a (FV.fin 0) 0 (FV.nan :: List.replicate m (FV.fin 0)) = _
    rw [ewmWilderGo]
    simp only [FV.isNan, if_true]
    rw [fv_mul_fin, fv_mul_fin, fv_add_fin, mul_zero, mul_zero, add_zero]
    simp only [if_pos rfl]
    congr 1
    exact ewmWilderGo_zeros a ha0 ha1 m 0 le_rfl

/-- C6: the first return value of `MACD(series, fast, slow, signal,
adjust)` is exactly, element by element, `EMA(series, fast) -
EMA(series, slow)` with the same adjust flag — both parametrize the
exponential recursion by span. -/
theorem macd_eq_ema_sub (column : List FV) (fast slow : ℕ) (signal : ℚ)
    (adjust : Bool) :
    (MACD column (fast : ℚ) (slow : ℚ) signal adjust).1 =
      zipSub (EMA column fast adjust) (EMA column slow adjust) := rfl

/-- C1: at `column = [0, 1]`, `ma = [0, 0]`, `period = 2`,
`stdMultiplier = 1` the upper band is `[0, 1]`, so the series touches
the upper band at bar 1; the spec formula `(series - lower)/(upper -
lower)` gives 1 there, but `PercentB` returns 0 (and the claimed value
1 nowhere): the source destructures the `(upper, lower)` pair returned
by `BBANDS` in the opposite order. -/
theorem percentB_swaps_bands :
    PercentB [FV.fin 0, FV.fin 1] [FV.fin 0, FV.fin 0] 2 1 = [FV.nan, FV.fin 0] ∧
    PercentBSpec [FV.fin 0, FV.fin 1] [FV.fin 0, FV.fin 0] 2 1 = [FV.nan, FV.fin 1] ∧
    (BBANDS [FV.fin 0, FV.fin 1] [FV.fin 0, FV.fin 0] 2 1).1 = [FV.fin 0, FV.fin 1] := by
  refine ⟨?_, ?_, ?_⟩ <;>
    norm_num [PercentB, PercentBSpec, BBANDS, rollStd, windowAt, sumL, fillna, mulScalar,
      zipAdd, zipSub, zipDiv, FV.mul, FV.add, FV.sub, FV.neg, FV.div, FV.sqrtv, FV.isNan,
      FV.ratSqrt, List.range_succ]

/-- C2 (counterexample): on the constant series of length 30 with
period 2 and `adjust = false`, the RSI at bar 10 (past warm-up) is 0,
not the claimed 100. -/
theorem rsi_const_not_100 :
    (RSI (List.replicate 30 (FV.fin 5)) 2 false).getD 10 FV.nan = FV.fin 0 ∧
      FV.fin 0 ≠ FV.fin 100 := by
  constructor
  · norm_num [RSI, diffL, clampUp, clampDown, absAll, ewmMean, ewmWilderGo, fillna,
      zipDiv, rsiApply, FV.mul, FV.add, FV.sub, FV.neg, FV.div, FV.isNan, FV.lt,
      FV.absv, List.replicate, List.zipWith]
  · simp

/-- C2 (amended): on a constant-price series the zero-loss case makes
the RS fill trigger 0, so `RSI = 100 - 100/(1+0) = 0` at every bar
(in particular at every bar past warm-up), for every period `≥ 1` and
either adjust flag. -/
theorem rsi_const_zero (c : ℚ) (n period : ℕ) (adjust : Bool) (hp : 1 ≤ period) :
    RSI (List.replicate n (FV.fin c)) period adjust = List.replicate n (FV.fin 0) := by
  have hp0 : (0:ℚ) < (period : ℚ) := by exact_mod_cast Nat.pos_of_ne_zero (by omega)
  have ha0 : (0:ℚ) < 1 / (period : ℚ) := by positivity
  have ha1 : 1 / (period : ℚ) ≤ 1 := by
    rw [div_le_one hp0]; exact_mod_cast hp
  cases n with
  | zero => cases adjust <;> rfl
  | succ m =>
    show (fillna (zipDiv
        (ewmMean (1/(period:ℚ)) adjust true
          ((diffL 1 (List.replicate (m+1) (FV.fin c))).map clampUp))
        (ewmMean (1/(period:ℚ)) adjust true
          (absAll ((diffL 1 (List.replicate (m+1) (FV.fin c))).map clampDown))))
        (FV.fin 0)).map rsiApply = List.replicate (m+1) (FV.fin 0)
    rw [diff_const]
    have hz : ∀ j : ℕ, List.zipWith FV.div (List.replicate j (FV.fin 0))
        (List.replicate j (FV.fin 0)) = List.replicate j FV.nan := by
      intro j
      induction j with
      | zero => rfl
      | succ k ih =>
        simp only [List.replicate_succ, List.zipWith_cons_cons, ih]
        norm_num [FV.div]
    have hmap1 : (FV.nan :: List.replicate m (FV.fin 0)).map clampUp =
        FV.nan :: List.replicate m (FV.fin 0) := by
      simp only [List.map_cons, List.map_replicate]
      norm_num [clampUp, FV.lt]
    have hmap2 : ((FV.nan :: List.replicate m (FV.fin 0)).map clampDown) =
        FV.nan :: List.replicate m (FV.fin 0) := by
      simp only [List.map_cons, List.map_replicate]
      norm_num [clampDown, FV.lt]
    have habs : absAll (FV.nan :: List.replicate m (FV.fin 0)) =
        FV.nan :: List.replicate m (FV.fin 0) := by
      unfold absAll
      simp only [List.map_cons, List.map_replicate]
      norm_num [FV.absv]
    rw [hmap1, hmap2, habs]
    rw [ewmConstHead _ ha0 ha1]
    unfold zipDiv
    rw [List.zipWith_cons_cons, hz m]
    unfold fillna
    rw [List.map_cons, List.map_replicate, List.map_cons, List.map_replicate]
    rw [(show FV.div FV.nan FV.nan = FV.nan from rfl)]
    rw [List.replicate_succ]
    norm_num [FV.isNan, rsiApply, FV.add, FV.div, FV.sub, FV.neg]

/-- C2 witness: the amended statement at length 30, period 14,
`adjust = true`. -/
theorem rsi_const_zero_witness :
    1 ≤ 14 ∧ RSI (List.replicate 30 (FV.fin 7)) 14 true = List.replicate 30 (FV.fin 0) :=
  ⟨by norm_num, rsi_const_zero 7 30 14 true (by norm_num)⟩

lemma wmaGo_short (period : ℕ) (d : ℚ) :
    ∀ (ws : List (List FV)) (len : ℕ), (∀ w ∈ ws, w.length < period) →
      wmaGo period d len ws =
        some (ws.map (fun w => FV.div (sumL (zipMul w (wmaWeights w.length))) (FV.fin d))) := by
  intro ws
  induction ws with
  | nil => intro len _; rfl
  | cons w rest ih =>
    intro len hws
    have hw : w.length < period := hws w (List.mem_cons_self w rest)
    rw [wmaGo]
    simp only [if_pos hw, if_pos rfl]
    rw [ih w.length (fun x hx => hws x (List.mem_cons_of_mem w hx))]
    rfl

lemma windowAt_take (p i : ℕ) (xs : List FV) (h : i + 1 ≤ p) :
    windowAt p i xs = xs.take (i + 1) := by
  unfold windowAt
  rw [Nat.sub_eq_zero_of_le h, List.drop_zero]

/-- C7 (amended): for a series entirely shorter than `period` every
window is partial, and each bar's value is the window multiplied by
the weight vector truncated to its first `window_size` entries
(weights `1..window_size`, not re-normalized) over the fixed
full-period divisor `period*(period+1)/2`.  (The full-window case of
the original claim fails: see the counterexample, where the stale
truncated weight vector makes the first full window fail.) -/
theorem wma_partial_windows (column : List FV) (period : ℕ)
    (h : column.length < period) :
    WMA column period =
      some ((List.range column.length).map (fun i =>
        FV.div (sumL (zipMul (column.take (i + 1))
          (wmaWeights (column.take (i + 1)).length)))
          (FV.fin (wmaDenom period)))) := by
  unfold WMA
  rw [wmaGo_short]
  · rw [List.map_map]
    congr 1
    apply List.map_congr_left
    intro i hi
    have him : i < column.length := List.mem_range.mp hi
    simp only [Function.comp]
    rw [windowAt_take period i column (by omega)]
  · intro w hw
    obtain ⟨i, hi, rfl⟩ := List.mem_map.mp hw
    have him : i < column.length := List.mem_range.mp hi
    rw [windowAt_take period i column (by omega)]
    have : (column.take (i + 1)).length = min (i + 1) column.length :=
      List.length_take (i + 1) column
    omega

/-- C7 (counterexample): with `period = 2` and a series of length 3,
the closure has truncated the weight vector to one entry at bar 0, so
the full window at bar 1 multiplies series of unequal length and the
call has no defined value — full windows never use weights
`1..period`. -/
theorem wma_full_window_fails :
    WMA [FV.fin 1, FV.fin 2, FV.fin 3] 2 = none := by
  norm_num [WMA, wmaGo, wmaWeights, wmaDenom, windowAt, sumL, zipMul,
    List.range_succ, FV.mul, FV.add, FV.div]

/-- C7 witness: the amended statement at `column = [1, 2]`,
`period = 3`, where the two partial windows produce `1*1/6` and
`(1*1 + 2*2)/6`. -/
theorem wma_partial_windows_witness :
    ([FV.fin 1, FV.fin 2] : List FV).length < 3 ∧
      WMA [FV.fin 1, FV.fin 2] 3 = some [FV.fin (1/6), FV.fin (5/6)] :=
  ⟨by norm_num,
    (wma_partial_windows [FV.fin 1, FV.fin 2] 3 (by norm_num)).trans (by
      norm_num [wmaWeights, wmaDenom, sumL, zipMul, List.range_succ,
        FV.mul, FV.add, FV.div])⟩



/-- Values that can appear in a smoothed gain/loss series: NaN,
`+inf`, or a nonnegative rational. -/
def NNv (v : FV) : Prop := v = FV.nan ∨ v = FV.pinf ∨ ∃ q, v = FV.fin q ∧ 0 ≤ q

lemma nn_clampUp (v : FV) : NNv (clampUp v) := by
  cases v with
  | nan => exact Or.inl rfl
  | pinf => exact Or.inr (Or.inl rfl)
  | ninf => exact Or.inr (Or.inr ⟨0, rfl, le_rfl⟩)
  | fin q =>
    show NNv (if decide (q < 0) = true then FV.fin 0 else FV.fin q)
    by_cases hq : q < 0
    · rw [if_pos (decide_eq_true hq)]
      exact Or.inr (Or.inr ⟨0, rfl, le_rfl⟩)
    · rw [if_neg (by simpa using hq)]
      exact Or.inr (Or.inr ⟨q, rfl, le_of_not_lt hq⟩)

lemma nn_downAbs (v : FV) : NNv (FV.absv (clampDown v)) := by
  cases v with
  | nan => exact Or.inl rfl
  | pinf => exact Or.inr (Or.inr ⟨0, rfl, le_rfl⟩)
  | ninf => exact Or.inr (Or.inl rfl)
  | fin q =>
    show NNv (FV.absv (if decide (0 < q) = true then FV.fin 0 else FV.fin q))
    by_cases hq : (0:ℚ) < q
    · rw [if_pos (decide_eq_true hq)]
      exact Or.inr (Or.inr ⟨|(0:ℚ)|, rfl, abs_nonneg 0⟩)
    · rw [if_neg (by simpa using hq)]
      exact Or.inr (Or.inr ⟨|q|, rfl, abs_nonneg q⟩)

lemma nn_scale (c : ℚ) (v : FV) (hc : 0 ≤ c) (h : NNv v) :
    NNv (FV.mul (FV.fin c) v) := by
  rcases h with rfl | rfl | ⟨q, rfl, hq⟩
  · exact Or.inl rfl
  · show NNv (if c = 0 then FV.nan else if 0 < c then FV.pinf else FV.ninf)
    by_cases hc0 : c = 0
    · rw [if_pos hc0]; exact Or.inl rfl
    · rw [if_neg hc0, if_pos (lt_of_le_of_ne hc (Ne.symm hc0))]
      exact Or.inr (Or.inl rfl)
  · exact Or.inr (Or.inr ⟨c * q, rfl, mul_nonneg hc hq⟩)

lemma nn_add (u v : FV) (hu : NNv u) (hv : NNv v) : NNv (FV.add u v) := by
  rcases hu with rfl | rfl | ⟨q, rfl, hq⟩ <;> rcases hv with rfl | rfl | ⟨r, rfl, hr⟩ <;>
    first
      | exact Or.inl rfl
      | exact Or.inr (Or.inl rfl)
      | exact Or.inr (Or.inr ⟨_, rfl, add_nonneg hq hr⟩)

lemma nn_div (u v : FV) (hu : NNv u) (hv : NNv v) : NNv (FV.div u v) := by
  rcases hu with rfl | rfl | ⟨q, rfl, hq⟩ <;> rcases hv with rfl | rfl | ⟨r, rfl, hr⟩
  · exact Or.inl rfl
  · exact Or.inl rfl
  · exact Or.inl rfl
  · exact Or.inl rfl
  · exact Or.inl rfl
  · show NNv (if r < 0 then FV.ninf else FV.pinf)
    rw [if_neg (not_lt.mpr hr)]
    exact Or.inr (Or.inl rfl)
  · exact Or.inl rfl
  · exact Or.inr (Or.inr ⟨0, rfl, le_rfl⟩)
  · show NNv (if r = 0 then (if q = 0 then FV.nan else if 0 < q then FV.pinf else FV.ninf)
      else FV.fin (q / r))
    by_cases hr0 : r = 0
    · rw [if_pos hr0]
      by_cases hq0 : q = 0
      · rw [if_pos hq0]; exact Or.inl rfl
      · rw [if_neg hq0, if_pos (lt_of_le_of_ne hq (Ne.symm hq0))]
        exact Or.inr (Or.inl rfl)
    · rw [if_neg hr0]
      exact Or.inr (Or.inr ⟨q / r, rfl, div_nonneg hq hr⟩)

lemma nn_skip (x : FV) (hx : NNv x) : NNv (if x.isNan then FV.fin 0 else x) := by
  by_cases h : x.isNan
  · rw [if_pos h]; exact Or.inr (Or.inr ⟨0, rfl, le_rfl⟩)
  · rw [if_neg h]; exact hx

lemma nn_divden (u : FV) (d : ℚ) (hd : 0 < d) (hu : NNv u) :
    NNv (FV.div u (FV.fin d)) := by
  rcases hu with rfl | rfl | ⟨q, rfl, hq⟩
  · exact Or.inl rfl
  · show NNv (if d < 0 then FV.ninf else FV.pinf)
    rw [if_neg (not_lt.mpr hd.le)]
    exact Or.inr (Or.inl rfl)
  · show NNv (if d = 0 then (if q = 0 then FV.nan else if 0 < q then FV.pinf else FV.ninf)
      else FV.fin (q / d))
    rw [if_neg hd.ne']
    exact Or.inr (Or.inr ⟨q / d, rfl, div_nonneg hq hd.le⟩)

lemma nn_ewmAdjGo (a : ℚ) (ha : a ≤ 1) :
    ∀ (xs : List FV) (num : FV) (den : ℚ), (∀ x ∈ xs, NNv x) → NNv num → 0 ≤ den →
      ∀ y ∈ ewmAdjGo a num den xs, NNv y := by
  intro xs
  induction xs with
  | nil => intro num den _ _ _ y hy; simp [ewmAdjGo] at hy
  | cons x rest ih =>
    intro num den hxs hnum hden y hy
    rw [ewmAdjGo] at hy
    have hnum' : NNv (FV.add (FV.mul (FV.fin (1 - a)) num)
        (if x.isNan then FV.fin 0 else x)) :=
      nn_add _ _ (nn_scale _ _ (by linarith) hnum)
        (nn_skip x (hxs x (List.mem_cons_self x rest)))
    have hden' : 0 ≤ (1 - a) * den + (if x.isNan then (0:ℚ) else 1) := by
      have : (0:ℚ) ≤ (1 - a) * den := mul_nonneg (by linarith) hden
      split <;> linarith
    rcases List.mem_cons.mp hy with rfl | hmem
    · by_cases hz : (1 - a) * den + (if x.isNan then (0:ℚ) else 1) = 0
      · rw [if_pos hz]; exact Or.inl rfl
      · rw [if_neg hz]
        exact nn_divden _ _ (lt_of_le_of_ne hden' (Ne.symm hz)) hnum'
    · exact ih _ _ (fun z hz => hxs z (List.mem_cons_of_mem x hz)) hnum' hden' y hmem

lemma nn_ewmWilderGo (a : ℚ) (ha0 : 0 ≤ a) (ha1 : a ≤ 1) :
    ∀ (xs : List FV) (r : FV) (w : ℚ), (∀ x ∈ xs, NNv x) → NNv r → 0 ≤ w →
      ∀ y ∈ ewmWilderGo a r w xs, NNv y := by
  intro xs
  induction xs with
  | nil => intro r w _ _ _ y hy; simp [ewmWilderGo] at hy
  | cons x rest ih =>
    intro r w hxs hr hw y hy
    rw [ewmWilderGo] at hy
    have hr' : NNv (FV.add (FV.mul (FV.fin (1 - a)) r)
        (FV.mul (FV.fin a) (if x.isNan then FV.fin 0 else x))) :=
      nn_add _ _ (nn_scale _ _ (by linarith) hr)
        (nn_scale _ _ ha0 (nn_skip x (hxs x (List.mem_cons_self x rest))))
    have hw' : 0 ≤ (1 - a) * w + (if x.isNan then (0:ℚ) else a) := by
      have : (0:ℚ) ≤ (1 - a) * w := mul_nonneg (by linarith) hw
      split <;> linarith
    rcases List.mem_cons.mp hy with rfl | hmem
    · by_cases hz : (1 - a) * w + (if x.isNan then (0:ℚ) else a) = 0
      · rw [if_pos hz]; exact Or.inl rfl
      · rw [if_neg hz]
        exact nn_divden _ _ (lt_of_le_of_ne hw' (Ne.symm hz)) hr'
    · exact ih _ _ (fun z hz => hxs z (List.mem_cons_of_mem x hz)) hr' hw' y hmem

lemma nn_ewmMean (a : ℚ) (ha0 : 0 ≤ a) (ha1 : a ≤ 1) (adjust : Bool)
    (xs : List FV) (hxs : ∀ x ∈ xs, NNv x) :
    ∀ y ∈ ewmMean a adjust true xs, NNv y := by
  cases adjust with
  | true =>
    exact nn_ewmAdjGo a ha1 xs (FV.fin 0) 0 hxs (Or.inr (Or.inr ⟨0, rfl, le_rfl⟩)) le_rfl
  | false =>
    exact nn_ewmWilderGo a ha0 ha1 xs (FV.fin 0) 0 hxs
      (Or.inr (Or.inr ⟨0, rfl, le_rfl⟩)) le_rfl

lemma mem_zipWith {α : Type} {f : α → α → α} :
    ∀ {l1 l2 : List α} {c : α}, c ∈ List.zipWith f l1 l2 →
      ∃ x ∈ l1, ∃ y ∈ l2, c = f x y := by
  intro l1
  induction l1 with
  | nil => intro l2 c hc; simp at hc
  | cons a t ih =>
    intro l2 c hc
    cases l2 with
    | nil => simp at hc
    | cons b u =>
      rw [List.zipWith_cons_cons] at hc
      rcases List.mem_cons.mp hc with rfl | hmem
      · exact ⟨a, List.mem_cons_self a t, b, List.mem_cons_self b u, rfl⟩
      · obtain ⟨x, hx, y, hy, rfl⟩ := ih hmem
        exact ⟨x, List.mem_cons_of_mem a hx, y, List.mem_cons_of_mem b hy, rfl⟩

lemma rsiApply_bounds (u : FV) (hu : NNv u) (hnn : u ≠ FV.nan) :
    ∃ r : ℚ, rsiApply u = FV.fin r ∧ 0 ≤ r ∧ r ≤ 100 := by
  rcases hu with rfl | rfl | ⟨q, rfl, hq⟩
  · exact absurd rfl hnn
  · refine ⟨100, ?_, by norm_num, le_rfl⟩
    show FV.add (FV.fin 100) (FV.neg (FV.fin 0)) = FV.fin 100
    rw [(show FV.neg (FV.fin 0) = FV.fin (-0) from rfl), fv_add_fin]
    norm_num
  · have h1 : (0:ℚ) < 1 + q := by linarith
    refine ⟨100 - 100 / (1 + q), ?_, ?_, ?_⟩
    · unfold rsiApply
      rw [fv_add_fin, fv_div_fin_ne _ _ h1.ne', fv_sub_fin]
    · have : 100 / (1 + q) ≤ 100 := by
        rw [div_le_iff₀ h1]; nlinarith
      linarith
    · have : 0 < 100 / (1 + q) := by positivity
      linarith

/-- C10: for every input series, period `≥ 1` and adjust flag, every
non-NaN value of `RSI(series, period, adjust)` lies in `[0, 100]`: the
smoothed gains and losses are nonnegative (or NaN/`+inf`), so each
filled RS value is nonnegative or `+inf` and `100 - 100/(1+RS)` is
bounded below by 0 and above by 100. -/
theorem rsi_bounded (column : List FV) (period : ℕ) (adjust : Bool)
    (hp : 1 ≤ period) :
    ∀ v ∈ RSI column period adjust, v.isNan = false →
      FV.le (FV.fin 0) v = true ∧ FV.le v (FV.fin 100) = true := by
  intro v hv _
  have hp0 : (0:ℚ) < (period : ℚ) := by exact_mod_cast Nat.pos_of_ne_zero (by omega)
  have ha0 : (0:ℚ) ≤ 1 / (period : ℚ) := by positivity
  have ha1 : 1 / (period : ℚ) ≤ 1 := by
    rw [div_le_one hp0]; exact_mod_cast hp
  obtain ⟨u, hu, rfl⟩ := List.mem_map.mp hv
  obtain ⟨w, hw, rfl⟩ := List.mem_map.mp hu
  obtain ⟨x, hx, y, hy, rfl⟩ := mem_zipWith hw
  have hgx : NNv x := by
    refine nn_ewmMean _ ha0 ha1 adjust _ ?_ x hx
    intro z hz
    obtain ⟨z0, _, rfl⟩ := List.mem_map.mp hz
    exact nn_clampUp z0
  have hgy : NNv y := by
    refine nn_ewmMean _ ha0 ha1 adjust _ ?_ y hy
    intro z hz
    obtain ⟨z1, hz1, rfl⟩ := List.mem_map.mp hz
    obtain ⟨z0, _, rfl⟩ := List.mem_map.mp hz1
    exact nn_downAbs z0
  have hdiv : NNv (FV.div x y) := nn_div x y hgx hgy
  have hfill : NNv (if (FV.div x y).isNan then FV.fin 0 else FV.div x y) ∧
      (if (FV.div x y).isNan then FV.fin 0 else FV.div x y) ≠ FV.nan := by
    constructor
    · exact nn_skip _ hdiv
    · by_cases h : (FV.div x y).isNan
      · rw [if_pos h]; intro hc; exact FV.noConfusion hc
      · rw [if_neg h]; intro hc; rw [hc] at h; exact h rfl
  obtain ⟨r, hr, hr0, hr100⟩ := rsiApply_bounds _ hfill.1 hfill.2
  rw [hr]
  constructor
  · show decide ((0:ℚ) ≤ r) = true
    exact decide_eq_true hr0
  · show decide (r ≤ (100:ℚ)) = true
    exact decide_eq_true hr100

/-- C10 witness. -/
theorem rsi_bounded_witness :
    FV.le (FV.fin 0) (FV.fin 100) = true ∧ FV.le (FV.fin 100) (FV.fin 100) = true :=
  rsi_bounded [FV.fin 4, FV.fin 8] 2 false (by norm_num) (FV.fin 100)
    (by norm_num [RSI, diffL, clampUp, clampDown, absAll, ewmMean, ewmWilderGo, fillna,
      zipDiv, rsiApply, FV.mul, FV.add, FV.sub, FV.neg, FV.div, FV.isNan, FV.lt,
      FV.absv, List.zipWith]) rfl



lemma psarGo_length (high low : List ℚ) (iaf maxaf : ℚ) :
    ∀ (k i : ℕ) (sp : PState × ℚ), (psarGo high low iaf maxaf k i sp).length = k := by
  intro k
  induction k with
  | zero => intro i sp; rfl
  | succ j ih => intro i sp; rw [psarGo]; simp only [List.length_cons, ih]

lemma psarGo_getD (high low : List ℚ) (iaf maxaf : ℚ) (d : Bool × ℚ) :
    ∀ (j k i : ℕ) (sp : PState × ℚ), j < k →
      (psarGo high low iaf maxaf k i sp).getD j d =
        ((psarNext high low iaf maxaf (i + j)
            (psarIterN high low iaf maxaf j i sp)).1.bull,
          (psarNext high low iaf maxaf (i + j)
            (psarIterN high low iaf maxaf j i sp)).2) := by
  intro j
  induction j with
  | zero =>
    intro k i sp hk
    match k, hk with
    | (m + 1), _ =>
      rw [psarGo]
      rfl
  | succ j ih =>
    intro k i sp hk
    match k, hk with
    | (m + 1), hk =>
      rw [psarGo]
      show (psarGo high low iaf maxaf m (i + 1) _).getD j d = _
      rw [ih m (i + 1) _ (by omega)]
      have harith : i + 1 + j = i + (j + 1) := by omega
      rw [harith]
      rfl

lemma psar_out_getD (high low close : List ℚ) (iaf maxaf : ℚ) (p bl br : List ℚ)
    (hps : PSAR high low close iaf maxaf = some (p, bl, br))
    (i : ℕ) (h2 : 2 ≤ i) (hn : i < close.length) :
    p.getD i 0 =
        (psarNext high low iaf maxaf i (psarStateAt high low close iaf maxaf i)).2 ∧
      bl.getD i 0 =
        (if psarBullAfter high low close iaf maxaf i then p.getD i 0 else 0) ∧
      br.getD i 0 =
        (if psarBullAfter high low close iaf maxaf i then 0 else p.getD i 0) := by
  match high, low with
  | [], _ => exact absurd hps (by simp [PSAR])
  | _ :: _, [] => exact absurd hps (by simp [PSAR])
  | h0 :: ht, l0 :: lt =>
    rw [PSAR] at hps
    set em := psarGo (h0 :: ht) (l0 :: lt) iaf maxaf (close.length - 2) 2
      (psarInit (h0 :: ht) (l0 :: lt) close iaf) with hem
    obtain ⟨hp, hbl, hbr⟩ : p = close.take 2 ++ em.map Prod.snd ∧
        bl = List.replicate (min 2 close.length) 0 ++
          em.map (fun q => if q.1 then q.2 else 0) ∧
        br = List.replicate (min 2 close.length) 0 ++
          em.map (fun q => if q.1 then 0 else q.2) := by
      have := Option.some.inj hps
      exact ⟨(congrArg Prod.fst this).symm,
        (congrArg (fun z => z.2.1) this).symm,
        (congrArg (fun z => z.2.2) this).symm⟩
    have hlen2 : (close.take 2).length = 2 := by
      rw [List.length_take]; omega
    have hmin : min 2 close.length = 2 := by omega
    have hemlen : em.length = close.length - 2 := psarGo_length _ _ _ _ _ _ _
    have hj : i - 2 < em.length := by omega
    have hgo := psarGo_getD (h0 :: ht) (l0 :: lt) iaf maxaf (true, 0) (i - 2)
      (close.length - 2) 2 (psarInit (h0 :: ht) (l0 :: lt) close iaf) (by omega)
    rw [← hem] at hgo
    have harith : 2 + (i - 2) = i := by omega
    rw [harith] at hgo
    have hemj : em.getD (i - 2) (true, 0) = em.get ⟨i - 2, hj⟩ :=
      List.getD_eq_get em (true, 0) hj
    rw [hemj] at hgo
    have hstate : psarIterN (h0 :: ht) (l0 :: lt) iaf maxaf (i - 2) 2
        (psarInit (h0 :: ht) (l0 :: lt) close iaf) =
          psarStateAt (h0 :: ht) (l0 :: lt) close iaf maxaf i := rfl
    rw [hstate] at hgo
    have hbull : psarBullAfter (h0 :: ht) (l0 :: lt) close iaf maxaf i =
        (em.get ⟨i - 2, hj⟩).1 := by
      rw [hgo]
      rfl
    have hpget : p.getD i 0 = (em.get ⟨i - 2, hj⟩).2 := by
      rw [hp, List.getD_append_right _ _ _ _ (by rw [hlen2]; omega), hlen2]
      rw [List.getD_eq_getElem _ _ (by rw [List.length_map]; omega)]
      rw [List.getElem_map]
      rfl
    refine ⟨?_, ?_, ?_⟩
    · rw [hpget, hgo]
    · rw [hbl, List.getD_append_right _ _ _ _ (by rw [List.length_replicate]; omega)]
      rw [List.length_replicate, hmin]
      rw [List.getD_eq_getElem _ _ (by rw [List.length_map]; omega)]
      rw [List.getElem_map]
      rw [hpget, hbull]
      rfl
    · rw [hbr, List.getD_append_right _ _ _ _ (by rw [List.length_replicate]; omega)]
      rw [List.length_replicate, hmin]
      rw [List.getD_eq_getElem _ _ (by rw [List.length_map]; omega)]
      rw [List.getElem_map]
      rw [hpget, hbull]
      rfl

lemma getD_replicate_lt {α : Type} (m i : ℕ) (x d : α) (h : i < m) :
    (List.replicate m x).getD i d = x := by
  rw [List.getD_eq_getElem _ _ (by simpa using h)]
  exact List.getElem_replicate ..

/-- C4: the two auxiliary PSAR outputs are mutually exclusive and
zero-padded: at every bar at most one of `bull[i]`, `bear[i]` is
nonzero, both are zero on the seed bars 0 and 1, and for `i ≥ 2` the
bar's SAR value goes to the bull output exactly when the state machine
is Bull after processing bar `i`, and to the bear output exactly when
it is Bear. -/
theorem psar_outputs_disjoint (high low close : List ℚ) (iaf maxaf : ℚ)
    (p bl br : List ℚ) (hps : PSAR high low close iaf maxaf = some (p, bl, br))
    (i : ℕ) (hn : i < close.length) :
    (bl.getD i 0 = 0 ∨ br.getD i 0 = 0) ∧
      (i < 2 → bl.getD i 0 = 0 ∧ br.getD i 0 = 0) ∧
      (2 ≤ i →
        (psarBullAfter high low close iaf maxaf i = true →
          bl.getD i 0 = p.getD i 0 ∧ br.getD i 0 = 0) ∧
        (psarBullAfter high low close iaf maxaf i = false →
          br.getD i 0 = p.getD i 0 ∧ bl.getD i 0 = 0)) := by
  by_cases h2 : 2 ≤ i
  · obtain ⟨hpv, hblv, hbrv⟩ := psar_out_getD high low close iaf maxaf p bl br hps i h2 hn
    refine ⟨?_, fun hlt => absurd h2 (by omega), fun _ => ⟨fun hb => ?_, fun hb => ?_⟩⟩
    · cases hflag : psarBullAfter high low close iaf maxaf i with
      | true => right; rw [hbrv, hflag]; rfl
      | false => left; rw [hblv, hflag]; rfl
    · rw [hblv, hbrv, hb]
      exact ⟨rfl, rfl⟩
    · rw [hblv, hbrv, hb]
      exact ⟨rfl, rfl⟩
  · -- seed bars
    match high, low with
    | [], _ => exact absurd hps (by simp [PSAR])
    | _ :: _, [] => exact absurd hps (by simp [PSAR])
    | h0 :: ht, l0 :: lt =>
      rw [PSAR] at hps
      have := Option.some.inj hps
      have hbl : bl = List.replicate (min 2 close.length) 0 ++ _ :=
        (congrArg (fun z => z.2.1) this).symm
      have hbr : br = List.replicate (min 2 close.length) 0 ++ _ :=
        (congrArg (fun z => z.2.2) this).symm
      have hi : i < min 2 close.length := by omega
      have hblz : bl.getD i 0 = 0 := by
        rw [hbl, List.getD_append _ _ _ _ (by rw [List.length_replicate]; omega)]
        exact getD_replicate_lt _ _ _ _ hi
      have hbrz : br.getD i 0 = 0 := by
        rw [hbr, List.getD_append _ _ _ _ (by rw [List.length_replicate]; omega)]
        exact getD_replicate_lt _ _ _ _ hi
      exact ⟨Or.inl hblz, fun _ => ⟨hblz, hbrz⟩, fun hge => absurd hge h2⟩

lemma psarStep_clamp (iaf maxaf hi lo lo1 lo2 hi1 hi2 prev : ℚ) (s : PState) :
    (s.bull = true → ¬ lo < psarCand s prev →
      (psarStep iaf maxaf hi lo lo1 lo2 hi1 hi2 prev s).2 ≤ lo1 ∧
        (psarStep iaf maxaf hi lo lo1 lo2 hi1 hi2 prev s).2 ≤ lo2) ∧
    (s.bull = false → ¬ psarCand s prev < hi →
      hi1 ≤ (psarStep iaf maxaf hi lo lo1 lo2 hi1 hi2 prev s).2 ∧
        hi2 ≤ (psarStep iaf maxaf hi lo lo1 lo2 hi1 hi2 prev s).2) := by
  obtain ⟨b, af, hp, lp⟩ := s
  constructor
  · intro hb hnr
    subst hb
    unfold psarStep
    simp only [if_pos rfl, if_neg hnr]
    split_ifs <;> constructor <;> linarith
  · intro hb hnr
    subst hb
    unfold psarStep
    simp only [Bool.false_eq_true, if_false, if_neg hnr]
    split_ifs <;> constructor <;> linarith

/-- C3: on every non-reversal bar `i ≥ 2` of a bull run (the bar's low
is at least the projected candidate SAR), the emitted `psar[i]` is at
most both `low[i-1]` and `low[i-2]`; symmetrically, on every
non-reversal bar of a bear run, `psar[i]` is at least both `high[i-1]`
and `high[i-2]`. -/
theorem psar_clamp (high low close : List ℚ) (iaf maxaf : ℚ) (p bl br : List ℚ)
    (hps : PSAR high low close iaf maxaf = some (p, bl, br))
    (i : ℕ) (h2 : 2 ≤ i) (hn : i < close.length)
    (_hh : high.length = close.length) (_hl : low.length = close.length) :
    ((psarStateAt high low close iaf maxaf i).1.bull = true →
      ¬ low.getD i 0 < psarCand (psarStateAt high low close iaf maxaf i).1
        (psarStateAt high low close iaf maxaf i).2 →
      p.getD i 0 ≤ low.getD (i - 1) 0 ∧ p.getD i 0 ≤ low.getD (i - 2) 0) ∧
    ((psarStateAt high low close iaf maxaf i).1.bull = false →
      ¬ psarCand (psarStateAt high low close iaf maxaf i).1
        (psarStateAt high low close iaf maxaf i).2 < high.getD i 0 →
      high.getD (i - 1) 0 ≤ p.getD i 0 ∧ high.getD (i - 2) 0 ≤ p.getD i 0) := by
  obtain ⟨hpv, -, -⟩ := psar_out_getD high low close iaf maxaf p bl br hps i h2 hn
  rw [hpv]
  exact psarStep_clamp iaf maxaf (high.getD i 0) (low.getD i 0) (low.getD (i - 1) 0)
    (low.getD (i - 2) 0) (high.getD (i - 1) 0) (high.getD (i - 2) 0)
    (psarStateAt high low close iaf maxaf i).2
    (psarStateAt high low close iaf maxaf i).1

/-- C3 witness: bar 2 of a rising three-bar series is a bull
non-reversal bar; the emitted SAR (clamped to 8) is at most both
previous lows. -/
theorem psar_clamp_witness :
    ([9, 10, 8] : List ℚ).getD 2 0 ≤ ([8, 9, 10] : List ℚ).getD 1 0 ∧
      ([9, 10, 8] : List ℚ).getD 2 0 ≤ ([8, 9, 10] : List ℚ).getD 0 0 :=
  (psar_clamp [10, 11, 12] [8, 9, 10] [9, 10, 11] (1/50) (1/5)
      [9, 10, 8] [0, 0, 8] [0, 0, 0]
      (by norm_num [PSAR, psarGo, psarNext, psarStep, psarCand, psarInit, min_def,
        List.replicate])
      2 (by norm_num) (by norm_num) rfl rfl).1 rfl
    (by norm_num [psarStateAt, psarIterN, psarInit, psarCand])

/-- C4 witness: at bar 2 of the same run the state machine is Bull, the
SAR value goes to the bull output and the bear output is zero. -/
theorem psar_outputs_disjoint_witness :
    ([0, 0, 8] : List ℚ).getD 2 0 = ([9, 10, 8] : List ℚ).getD 2 0 ∧
      ([0, 0, 0] : List ℚ).getD 2 0 = 0 :=
  ((psar_outputs_disjoint [10, 11, 12] [8, 9, 10] [9, 10, 11] (1/50) (1/5)
      [9, 10, 8] [0, 0, 8] [0, 0, 0]
      (by norm_num [PSAR, psarGo, psarNext, psarStep, psarCand, psarInit, min_def,
        List.replicate])
      2 (by norm_num)).2.2 (by norm_num)).1
    (by norm_num [psarBullAfter, psarNext, psarStep, psarCand, psarStateAt,
      psarIterN, psarInit, min_def])

/-- C5 (counterexample): on the empty well-formed frame the source
reads `highValues[0]` before the loop and panics — the call does not
complete without error. -/
theorem psar_empty_panics : PSAR ([] : List ℚ) [] [] (1/50) (1/5) = none := rfl

/-- C5 (amended): for well-formed input of length 1 or 2 the call
completes and produces only seeded/zero output (`psar = close`, bull
and bear all zero); the empty input panics on the `high[0]` read. -/
theorem psar_short_seed (high low close : List ℚ) (iaf maxaf : ℚ)
    (hh : high.length = close.length) (hl : low.length = close.length)
    (h1 : 1 ≤ close.length) (h2 : close.length ≤ 2) :
    PSAR high low close iaf maxaf =
      some (close, List.replicate close.length 0, List.replicate close.length 0) := by
  match high, low with
  | [], _ => simp at hh; omega
  | _ :: _, [] => simp at hl; omega
  | h0 :: ht, l0 :: lt =>
    rw [PSAR]
    have hk : close.length - 2 = 0 := by omega
    rw [hk]
    simp only [psarGo, List.map_nil, List.append_nil]
    rw [List.take_of_length_le h2, min_eq_right h2]

/-- C5 witness: the amended statement on a one-bar frame. -/
theorem psar_short_seed_witness :
    PSAR [(5:ℚ)] [4] [4] (1/50) (1/5) = some ([4], [0], [0]) :=
  psar_short_seed [5] [4] [4] (1/50) (1/5) rfl rfl (by norm_num) (by norm_num)



lemma bkey_mul (f : ℤ) (hf : 0 < f) (k : ℤ) : bkey f 0 (k * f) = k := by
  unfold bkey
  rw [sub_zero]
  exact Int.mul_fdiv_cancel k hf.ne'

lemma bucketGo_id (agg : List ℚ → ℚ) (hagg : ∀ v, agg [v] = v) (f : ℤ) (hf : 0 < f) :
    ∀ (rest : List (ℤ × ℚ)) (t : ℤ) (v : ℚ), (∃ k, t = k * f) →
      (∀ tv ∈ rest, ∃ j : ℤ, tv.1 = j * f) →
      List.Chain' (fun a b : ℤ × ℚ => a.1 < b.1) ((t, v) :: rest) →
      (bucketGo f 0 (bkey f 0 t) [v] rest).map
          (fun g => ((0:ℤ) + g.1 * f, agg g.2)) = (t, v) :: rest := by
  intro rest
  induction rest with
  | nil =>
    intro t v ⟨k, hk⟩ _ _
    subst hk
    rw [bucketGo]
    simp only [List.map_cons, List.map_nil, List.reverse_cons, List.reverse_nil,
      List.nil_append]
    rw [bkey_mul f hf k, hagg, zero_add]
  | cons tv2 r2 ih =>
    intro t v ⟨k, hk⟩ hrest hchain
    obtain ⟨t2, v2⟩ := tv2
    obtain ⟨k2, hk2⟩ := hrest (t2, v2) (List.mem_cons_self _ _)
    simp only at hk2
    have hlt : t < t2 := (List.chain'_cons.mp hchain).1
    have hkk : k < k2 := by
      rw [hk, hk2] at hlt
      exact lt_of_mul_lt_mul_right (by linarith) hf.le
    have hne : bkey f 0 t2 ≠ bkey f 0 t := by
      rw [hk, hk2, bkey_mul f hf, bkey_mul f hf]
      omega
    rw [bucketGo, if_neg hne]
    rw [List.map_cons]
    have hhead : ((0:ℤ) + bkey f 0 t * f, agg [v].reverse) = (t, v) := by
      rw [hk, bkey_mul f hf]
      simp only [List.reverse_cons, List.reverse_nil, List.nil_append]
      rw [hagg, zero_add]
    rw [hhead]
    congr 1
    exact ih t2 v2 ⟨k2, hk2⟩ (fun z hz => hrest z (List.mem_cons_of_mem _ hz))
      (List.chain'_cons.mp hchain).2

lemma resampleWith_id (agg : List ℚ → ℚ) (hagg : ∀ v, agg [v] = v) (f : ℤ)
    (hf : 0 < f) (s : SData) (hg : onGrid f s) : resampleWith f 0 agg s = s := by
  obtain ⟨fr, items⟩ := s
  obtain ⟨hfr, hgrid, hchain⟩ := hg
  simp only at hfr
  subst hfr
  cases items with
  | nil => rfl
  | cons tv rest =>
    obtain ⟨t, v⟩ := tv
    unfold resampleWith
    simp only [SData.mk.injEq, true_and]
    exact bucketGo_id agg hagg _ hf rest t v
      (by simpa using hgrid (t, v) (List.mem_cons_self _ _))
      (fun z hz => hgrid z (List.mem_cons_of_mem _ hz)) hchain

/-- C8: resampling an OHLCV frame to its own existing frequency is the
identity: when every column's timestamps sit on the frequency grid
(strictly increasing), each bucket holds exactly one sample, so
`first`, `max`, `min`, `last` and `sum` all reproduce that sample and
all five columns are unchanged. -/
theorem resample_self_id (x : OHLCV) (f : ℤ) (hf : 0 < f)
    (ho : onGrid f x.Open) (hh : onGrid f x.High) (hl : onGrid f x.Low)
    (hc : onGrid f x.Close) (hv : onGrid f x.Volume) :
    x.Resample f = x := by
  obtain ⟨o, h, l, c, v⟩ := x
  unfold OHLCV.Resample
  simp only [OHLCV.mk.injEq]
  refine ⟨?_, ?_, ?_, ?_, ?_⟩
  · exact resampleWith_id aggFirst (fun z => rfl) f hf o ho
  · exact resampleWith_id aggMax (fun z => rfl) f hf h hh
  · exact resampleWith_id aggMin (fun z => rfl) f hf l hl
  · exact resampleWith_id aggLast (fun z => rfl) f hf c hc
  · exact resampleWith_id aggSum (fun z => zero_add z) f hf v hv

/-- C8 witness: a two-bar frame on a 60-unit grid resamples to itself. -/
theorem resample_self_id_witness :
    (OHLCV.mk ⟨60, [(0, 1), (60, 2)]⟩ ⟨60, [(0, 3), (60, 4)]⟩
        ⟨60, [(0, 5), (60, 6)]⟩ ⟨60, [(0, 7), (60, 8)]⟩
        ⟨60, [(0, 9), (60, 10)]⟩).Resample 60 =
      OHLCV.mk ⟨60, [(0, 1), (60, 2)]⟩ ⟨60, [(0, 3), (60, 4)]⟩
        ⟨60, [(0, 5), (60, 6)]⟩ ⟨60, [(0, 7), (60, 8)]⟩
        ⟨60, [(0, 9), (60, 10)]⟩ := by
  have hgrid : ∀ (a b : ℚ), onGrid 60 ⟨60, [(0, a), (60, b)]⟩ := by
    intro a b
    refine ⟨rfl, ?_, ?_⟩
    · intro tv htv
      rcases List.mem_cons.mp htv with rfl | htv2
      · exact ⟨0, by norm_num⟩
      · rcases List.mem_cons.mp htv2 with rfl | htv3
        · exact ⟨1, by norm_num⟩
        · simp at htv3
    · simp only [List.chain'_cons, List.chain'_singleton, and_true]
      norm_num
  exact resample_self_id _ 60 (by norm_num) (hgrid 1 2) (hgrid 3 4) (hgrid 5 6)
    (hgrid 7 8) (hgrid 9 10)


/-! ### C9: the frame property of the indicator calls. -/

/-- Store `st'` preserves the first `k` buffers of `st` and does not
shrink. -/
def Keeps (k : ℕ) (st st' : Store) : Prop :=
  (∀ i, i < k → sread st' i = sread st i) ∧ st.length ≤ st'.length

lemma keeps_trans {k : ℕ} {s1 s2 s3 : Store} (a : Keeps k s1 s2) (b : Keeps k s2 s3) :
    Keeps k s1 s3 :=
  ⟨fun i hi => (b.1 i hi).trans (a.1 i hi), le_trans a.2 b.2⟩

lemma keeps_len {k : ℕ} {s1 s2 : Store} (a : Keeps k s1 s2) (h : k ≤ s1.length) :
    k ≤ s2.length := le_trans h a.2

/-- An allocating engine call: the fresh buffer is appended, existing
buffers are untouched, and the returned handle is past the protected
prefix. -/
lemma keeps_allocStep (k : ℕ) (st : Store) (v : List FV) (h : k ≤ st.length) :
    Keeps k st (salloc st v).1 ∧ k ≤ (salloc st v).2 := by
  refine ⟨⟨fun i hi => ?_, ?_⟩, h⟩
  · show (st ++ [v]).getD i [] = st.getD i []
    rw [List.getD_append _ _ _ _ (by omega)]
  · show st.length ≤ (st ++ [v]).length
    rw [List.length_append]; omega

/-- An in-place engine call on a non-input buffer: buffers below the
protected prefix are untouched and the receiver handle is returned. -/
lemma keeps_writeStep (k : ℕ) (st : Store) (hdl : ℕ) (v : List FV) (hh : k ≤ hdl) :
    Keeps k st (swrite st hdl v, hdl).1 ∧ k ≤ (swrite st hdl v, hdl).2 := by
  refine ⟨⟨fun i hi => ?_, ?_⟩, hh⟩
  · show (st.set hdl v).getD i [] = st.getD i []
    by_cases hlt : i < st.length
    · rw [List.getD_eq_getElem _ _ (by rw [List.length_set]; omega),
        List.getD_eq_getElem _ _ hlt]
      exact List.getElem_set_ne (show hdl ≠ i by omega) _
    · rw [List.getD_eq_default _ _ (by rw [List.length_set]; omega),
        List.getD_eq_default _ _ (by omega)]
  · show st.length ≤ (st.set hdl v).length
    rw [List.length_set]

lemma keeps_SMAh (k column period : ℕ) (st : Store) (h : k ≤ st.length) :
    Keeps k st (SMAh column period st).1 ∧ k ≤ (SMAh column period st).2 :=
  keeps_allocStep k st _ h

lemma keeps_ROCh (k : ℕ) (column period : ℕ) (st : Store) (h : k ≤ st.length) :
    Keeps k st (ROCh column period st).1 ∧ k ≤ (ROCh column period st).2 := by
  simp only [ROCh]
  set e1 := hDiff column period st with he1
  have se1 : Keeps k st e1.1 ∧ k ≤ e1.2 :=
    keeps_allocStep k st _ h
  have le1 : k ≤ e1.1.length := keeps_len se1.1 h
  set e2 := hShift column period e1.1 with he2
  have se2 : Keeps k e1.1 e2.1 ∧ k ≤ e2.2 :=
    keeps_allocStep k e1.1 _ le1
  have le2 : k ≤ e2.1.length := keeps_len se2.1 le1
  set e3 := hDivB e1.2 e2.2 e2.1 with he3
  have se3 : Keeps k e2.1 e3.1 ∧ k ≤ e3.2 :=
    keeps_writeStep k e2.1 e1.2 _ se1.2
  have le3 : k ≤ e3.1.length := keeps_len se3.1 le2
  set e4 := hMulScalar e3.2 (FV.fin 100) e3.1 with he4
  have se4 : Keeps k e3.1 e4.1 ∧ k ≤ e4.2 :=
    keeps_writeStep k e3.1 e3.2 _ se3.2
  have le4 : k ≤ e4.1.length := keeps_len se4.1 le3
  exact ⟨(keeps_trans (keeps_trans (keeps_trans se1.1 se2.1) se3.1) se4.1), se4.2⟩

lemma keeps_KSTh (k : ℕ) (column r1 r2 r3 r4 : ℕ) (st : Store) (h : k ≤ st.length) :
    Keeps k st (KSTh column r1 r2 r3 r4 st).1 ∧ k ≤ (KSTh column r1 r2 r3 r4 st).2.1 ∧ k ≤ (KSTh column r1 r2 r3 r4 st).2.2 := by
  simp only [KSTh]
  set a1 := ROCh column r1 st with ha1
  have sa1 : Keeps k st a1.1 ∧ k ≤ a1.2 :=
    keeps_ROCh k column r1 st h
  have la1 : k ≤ a1.1.length := keeps_len sa1.1 h
  set b1 := hRollMean a1.2 10 a1.1 with hb1
  have sb1 : Keeps k a1.1 b1.1 ∧ k ≤ b1.2 :=
    keeps_allocStep k a1.1 _ la1
  have lb1 : k ≤ b1.1.length := keeps_len sb1.1 la1
  set a2 := ROCh column r2 b1.1 with ha2
  have sa2 : Keeps k b1.1 a2.1 ∧ k ≤ a2.2 :=
    keeps_ROCh k column r2 b1.1 lb1
  have la2 : k ≤ a2.1.length := keeps_len sa2.1 lb1
  set b2 := hRollMean a2.2 10 a2.1 with hb2
  have sb2 : Keeps k a2.1 b2.1 ∧ k ≤ b2.2 :=
    keeps_allocStep k a2.1 _ la2
  have lb2 : k ≤ b2.1.length := keeps_len sb2.1 la2
  set a3 := ROCh column r3 b2.1 with ha3
  have sa3 : Keeps k b2.1 a3.1 ∧ k ≤ a3.2 :=
    keeps_ROCh k column r3 b2.1 lb2
  have la3 : k ≤ a3.1.length := keeps_len sa3.1 lb2
  set b3 := hRollMean a3.2 10 a3.1 with hb3
  have sb3 : Keeps k a3.1 b3.1 ∧ k ≤ b3.2 :=
    keeps_allocStep k a3.1 _ la3
  have lb3 : k ≤ b3.1.length := keeps_len sb3.1 la3
  set a4 := ROCh column r4 b3.1 with ha4
  have sa4 : Keeps k b3.1 a4.1 ∧ k ≤ a4.2 :=
    keeps_ROCh k column r4 b3.1 lb3
  have la4 : k ≤ a4.1.length := keeps_len sa4.1 lb3
  set b4 := hRollMean a4.2 10 a4.1 with hb4
  have sb4 : Keeps k a4.1 b4.1 ∧ k ≤ b4.2 :=
    keeps_allocStep k a4.1 _ la4
  have lb4 : k ≤ b4.1.length := keeps_len sb4.1 la4
  set m2 := hMulScalar b2.2 (FV.fin 2) b4.1 with hm2
  have sm2 : Keeps k b4.1 m2.1 ∧ k ≤ m2.2 :=
    keeps_writeStep k b4.1 b2.2 _ sb2.2
  have lm2 : k ≤ m2.1.length := keeps_len sm2.1 lb4
  set k1 := hAdd b1.2 m2.2 m2.1 with hk1
  have sk1 : Keeps k m2.1 k1.1 ∧ k ≤ k1.2 :=
    keeps_writeStep k m2.1 b1.2 _ sb1.2
  have lk1 : k ≤ k1.1.length := keeps_len sk1.1 lm2
  set m3 := hMulScalar b3.2 (FV.fin 3) k1.1 with hm3
  have sm3 : Keeps k k1.1 m3.1 ∧ k ≤ m3.2 :=
    keeps_writeStep k k1.1 b3.2 _ sb3.2
  have lm3 : k ≤ m3.1.length := keeps_len sm3.1 lk1
  set k2 := hAdd k1.2 m3.2 m3.1 with hk2
  have sk2 : Keeps k m3.1 k2.1 ∧ k ≤ k2.2 :=
    keeps_writeStep k m3.1 k1.2 _ sk1.2
  have lk2 : k ≤ k2.1.length := keeps_len sk2.1 lm3
  set m4 := hMulScalar b4.2 (FV.fin 4) k2.1 with hm4
  have sm4 : Keeps k k2.1 m4.1 ∧ k ≤ m4.2 :=
    keeps_writeStep k k2.1 b4.2 _ sb4.2
  have lm4 : k ≤ m4.1.length := keeps_len sm4.1 lk2
  set k3 := hAdd k2.2 m4.2 m4.1 with hk3
  have sk3 : Keeps k m4.1 k3.1 ∧ k ≤ k3.2 :=
    keeps_writeStep k m4.1 k2.2 _ sk2.2
  have lk3 : k ≤ k3.1.length := keeps_len sk3.1 lm4
  set sg := hRollMean k3.2 10 k3.1 with hsg
  have ssg : Keeps k k3.1 sg.1 ∧ k ≤ sg.2 :=
    keeps_allocStep k k3.1 _ lk3
  have lsg : k ≤ sg.1.length := keeps_len ssg.1 lk3
  exact ⟨(keeps_trans (keeps_trans (keeps_trans (keeps_trans (keeps_trans (keeps_trans (keeps_trans (keeps_trans (keeps_trans (keeps_trans (keeps_trans (keeps_trans (keeps_trans (keeps_trans sa1.1 sb1.1) sa2.1) sb2.1) sa3.1) sb3.1) sa4.1) sb4.1) sm2.1) sk1.1) sm3.1) sk2.1) sm4.1) sk3.1) ssg.1), sk3.2, ssg.2⟩

lemma keeps_FISHh (k : ℕ) (rlog : ℚ → ℚ) (low high period : ℕ) (adjust : Bool) (st : Store) (h : k ≤ st.length) :
    Keeps k st (FISHh rlog low high period adjust st).1 ∧ k ≤ (FISHh rlog low high period adjust st).2 := by
  simp only [FISHh]
  set c1 := hClone high st with hc1
  have sc1 : Keeps k st c1.1 ∧ k ≤ c1.2 :=
    keeps_allocStep k st _ h
  have lc1 : k ≤ c1.1.length := keeps_len sc1.1 h
  set m1 := hAdd c1.2 low c1.1 with hm1
  have sm1 : Keeps k c1.1 m1.1 ∧ k ≤ m1.2 :=
    keeps_writeStep k c1.1 c1.2 _ sc1.2
  have lm1 : k ≤ m1.1.length := keeps_len sm1.1 lc1
  set m2 := hMulScalar m1.2 (FV.fin (1/2)) m1.1 with hm2
  have sm2 : Keeps k m1.1 m2.1 ∧ k ≤ m2.2 :=
    keeps_writeStep k m1.1 m1.2 _ sm1.2
  have lm2 : k ≤ m2.1.length := keeps_len sm2.1 lm1
  set o1 := hRollMin m2.2 period m2.1 with ho1
  have so1 : Keeps k m2.1 o1.1 ∧ k ≤ o1.2 :=
    keeps_allocStep k m2.1 _ lm2
  have lo1 : k ≤ o1.1.length := keeps_len so1.1 lm2
  set o2 := hRollMax m2.2 period o1.1 with ho2
  have so2 : Keeps k o1.1 o2.1 ∧ k ≤ o2.2 :=
    keeps_allocStep k o1.1 _ lo1
  have lo2 : k ≤ o2.1.length := keeps_len so2.1 lo1
  set t1 := hSub m2.2 o1.2 o2.1 with ht1
  have st1 : Keeps k o2.1 t1.1 ∧ k ≤ t1.2 :=
    keeps_writeStep k o2.1 m2.2 _ sm2.2
  have lt1 : k ≤ t1.1.length := keeps_len st1.1 lo2
  set t2 := hSub o2.2 o1.2 t1.1 with ht2
  have st2 : Keeps k t1.1 t2.1 ∧ k ≤ t2.2 :=
    keeps_writeStep k t1.1 o2.2 _ so2.2
  have lt2 : k ≤ t2.1.length := keeps_len st2.1 lt1
  set r1 := hDivB t1.2 t2.2 t2.1 with hr1
  have sr1 : Keeps k t2.1 r1.1 ∧ k ≤ r1.2 :=
    keeps_writeStep k t2.1 t1.2 _ st1.2
  have lr1 : k ≤ r1.1.length := keeps_len sr1.1 lt2
  set r2 := hMulScalar r1.2 (FV.fin 2) r1.1 with hr2
  have sr2 : Keeps k r1.1 r2.1 ∧ k ≤ r2.2 :=
    keeps_writeStep k r1.1 r1.2 _ sr1.2
  have lr2 : k ≤ r2.1.length := keeps_len sr2.1 lr1
  set r3 := hSubScalar r2.2 (FV.fin 1) r2.1 with hr3
  have sr3 : Keeps k r2.1 r3.1 ∧ k ≤ r3.2 :=
    keeps_writeStep k r2.1 r2.2 _ sr2.2
  have lr3 : k ≤ r3.1.length := keeps_len sr3.1 lr2
  set w1 := hEWMMean r3.2 (spanToAlpha 5) adjust false r3.1 with hw1
  have sw1 : Keeps k r3.1 w1.1 ∧ k ≤ w1.2 :=
    keeps_allocStep k r3.1 _ lr3
  have lw1 : k ≤ w1.1.length := keeps_len sw1.1 lr3
  set f1 := hFillna w1.2 (FV.fin 0) w1.1 with hf1
  have sf1 : Keeps k w1.1 f1.1 ∧ k ≤ f1.2 :=
    keeps_writeStep k w1.1 w1.2 _ sw1.2
  have lf1 : k ≤ f1.1.length := keeps_len sf1.1 lw1
  set a1 := hClone f1.2 f1.1 with ha1
  have sa1 : Keeps k f1.1 a1.1 ∧ k ≤ a1.2 :=
    keeps_allocStep k f1.1 _ lf1
  have la1 : k ≤ a1.1.length := keeps_len sa1.1 lf1
  set a2 := hAddScalar a1.2 (FV.fin 1) a1.1 with ha2
  have sa2 : Keeps k a1.1 a2.1 ∧ k ≤ a2.2 :=
    keeps_writeStep k a1.1 a1.2 _ sa1.2
  have la2 : k ≤ a2.1.length := keeps_len sa2.1 la1
  set b1 := hMulScalar f1.2 (FV.fin (-1)) a2.1 with hb1
  have sb1 : Keeps k a2.1 b1.1 ∧ k ≤ b1.2 :=
    keeps_writeStep k a2.1 f1.2 _ sf1.2
  have lb1 : k ≤ b1.1.length := keeps_len sb1.1 la2
  set b2 := hAddScalar b1.2 (FV.fin 1) b1.1 with hb2
  have sb2 : Keeps k b1.1 b2.1 ∧ k ≤ b2.2 :=
    keeps_writeStep k b1.1 b1.2 _ sb1.2
  have lb2 : k ≤ b2.1.length := keeps_len sb2.1 lb1
  set d1 := hDivB a2.2 b2.2 b2.1 with hd1
  have sd1 : Keeps k b2.1 d1.1 ∧ k ≤ d1.2 :=
    keeps_writeStep k b2.1 a2.2 _ sa2.2
  have ld1 : k ≤ d1.1.length := keeps_len sd1.1 lb2
  set g1 := hLog d1.2 rlog d1.1 with hg1
  have sg1 : Keeps k d1.1 g1.1 ∧ k ≤ g1.2 :=
    keeps_writeStep k d1.1 d1.2 _ sd1.2
  have lg1 : k ≤ g1.1.length := keeps_len sg1.1 ld1
  set w2 := hEWMMean g1.2 (spanToAlpha 3) adjust false g1.1 with hw2
  have sw2 : Keeps k g1.1 w2.1 ∧ k ≤ w2.2 :=
    keeps_allocStep k g1.1 _ lg1
  have lw2 : k ≤ w2.1.length := keeps_len sw2.1 lg1
  exact ⟨(keeps_trans (keeps_trans (keeps_trans (keeps_trans (keeps_trans (keeps_trans (keeps_trans (keeps_trans (keeps_trans (keeps_trans (keeps_trans (keeps_trans (keeps_trans (keeps_trans (keeps_trans (keeps_trans (keeps_trans (keeps_trans sc1.1 sm1.1) sm2.1) so1.1) so2.1) st1.1) st2.1) sr1.1) sr2.1) sr3.1) sw1.1) sf1.1) sa1.1) sa2.1) sb1.1) sb2.1) sd1.1) sg1.1) sw2.1), sw2.2⟩

lemma keeps_MACDh (k : ℕ) (column : ℕ) (periodFast periodSlow signal : ℚ) (adjust : Bool) (st : Store) (h : k ≤ st.length) :
    Keeps k st (MACDh column periodFast periodSlow signal adjust st).1 ∧ k ≤ (MACDh column periodFast periodSlow signal adjust st).2.1 ∧ k ≤ (MACDh column periodFast periodSlow signal adjust st).2.2 := by
  simp only [MACDh]
  set ef := hEWMMean column (spanToAlpha periodFast) adjust false st with hef
  have sef : Keeps k st ef.1 ∧ k ≤ ef.2 :=
    keeps_allocStep k st _ h
  have lef : k ≤ ef.1.length := keeps_len sef.1 h
  set es := hEWMMean column (spanToAlpha periodSlow) adjust false ef.1 with hes
  have ses : Keeps k ef.1 es.1 ∧ k ≤ es.2 :=
    keeps_allocStep k ef.1 _ lef
  have les : k ≤ es.1.length := keeps_len ses.1 lef
  set mm := hSub ef.2 es.2 es.1 with hmm
  have smm : Keeps k es.1 mm.1 ∧ k ≤ mm.2 :=
    keeps_writeStep k es.1 ef.2 _ sef.2
  have lmm : k ≤ mm.1.length := keeps_len smm.1 les
  set sg := hEWMMean mm.2 (spanToAlpha signal) adjust false mm.1 with hsg
  have ssg : Keeps k mm.1 sg.1 ∧ k ≤ sg.2 :=
    keeps_allocStep k mm.1 _ lmm
  have lsg : k ≤ sg.1.length := keeps_len ssg.1 lmm
  exact ⟨(keeps_trans (keeps_trans (keeps_trans sef.1 ses.1) smm.1) ssg.1), smm.2, ssg.2⟩

lemma keeps_BBANDSh (k : ℕ) (column ma period : ℕ) (stdMultiplier : ℚ) (st : Store) (h : k ≤ st.length) :
    Keeps k st (BBANDSh column ma period stdMultiplier st).1 ∧ k ≤ (BBANDSh column ma period stdMultiplier st).2.1 ∧ k ≤ (BBANDSh column ma period stdMultiplier st).2.2 := by
  simp only [BBANDSh]
  set s1 := hRollStd column ma period 1 st with hs1
  have ss1 : Keeps k st s1.1 ∧ k ≤ s1.2 :=
    keeps_allocStep k st _ h
  have ls1 : k ≤ s1.1.length := keeps_len ss1.1 h
  set s2 := hFillna s1.2 (FV.fin 0) s1.1 with hs2
  have ss2 : Keeps k s1.1 s2.1 ∧ k ≤ s2.2 :=
    keeps_writeStep k s1.1 s1.2 _ ss1.2
  have ls2 : k ≤ s2.1.length := keeps_len ss2.1 ls1
  set s3 := hMulScalar s2.2 (FV.fin stdMultiplier) s2.1 with hs3
  have ss3 : Keeps k s2.1 s3.1 ∧ k ≤ s3.2 :=
    keeps_writeStep k s2.1 s2.2 _ ss2.2
  have ls3 : k ≤ s3.1.length := keeps_len ss3.1 ls2
  set u1 := hClone ma s3.1 with hu1
  have su1 : Keeps k s3.1 u1.1 ∧ k ≤ u1.2 :=
    keeps_allocStep k s3.1 _ ls3
  have lu1 : k ≤ u1.1.length := keeps_len su1.1 ls3
  set u2 := hAdd u1.2 s3.2 u1.1 with hu2
  have su2 : Keeps k u1.1 u2.1 ∧ k ≤ u2.2 :=
    keeps_writeStep k u1.1 u1.2 _ su1.2
  have lu2 : k ≤ u2.1.length := keeps_len su2.1 lu1
  set v1 := hClone ma u2.1 with hv1
  have sv1 : Keeps k u2.1 v1.1 ∧ k ≤ v1.2 :=
    keeps_allocStep k u2.1 _ lu2
  have lv1 : k ≤ v1.1.length := keeps_len sv1.1 lu2
  set v2 := hSub v1.2 s3.2 v1.1 with hv2
  have sv2 : Keeps k v1.1 v2.1 ∧ k ≤ v2.2 :=
    keeps_writeStep k v1.1 v1.2 _ sv1.2
  have lv2 : k ≤ v2.1.length := keeps_len sv2.1 lv1
  exact ⟨(keeps_trans (keeps_trans (keeps_trans (keeps_trans (keeps_trans (keeps_trans ss1.1 ss2.1) ss3.1) su1.1) su2.1) sv1.1) sv2.1), su2.2, sv2.2⟩

lemma keeps_PercentBh (k : ℕ) (column ma period : ℕ) (stdMultiplier : ℚ) (st : Store) (h : k ≤ st.length) :
    Keeps k st (PercentBh column ma period stdMultiplier st).1 ∧ k ≤ (PercentBh column ma period stdMultiplier st).2 := by
  simp only [PercentBh]
  set bb := BBANDSh column ma period stdMultiplier st with hbb
  have sbb : Keeps k st bb.1 ∧ k ≤ bb.2.1 ∧ k ≤ bb.2.2 :=
    keeps_BBANDSh k column ma period stdMultiplier st h
  have lbb : k ≤ bb.1.length := keeps_len sbb.1 h
  set c1 := hClone column bb.1 with hc1
  have sc1 : Keeps k bb.1 c1.1 ∧ k ≤ c1.2 :=
    keeps_allocStep k bb.1 _ lbb
  have lc1 : k ≤ c1.1.length := keeps_len sc1.1 lbb
  set c2 := hSub c1.2 bb.2.1 c1.1 with hc2
  have sc2 : Keeps k c1.1 c2.1 ∧ k ≤ c2.2 :=
    keeps_writeStep k c1.1 c1.2 _ sc1.2
  have lc2 : k ≤ c2.1.length := keeps_len sc2.1 lc1
  set t1 := hSub bb.2.2 bb.2.1 c2.1 with ht1
  have st1 : Keeps k c2.1 t1.1 ∧ k ≤ t1.2 :=
    keeps_writeStep k c2.1 bb.2.2 _ sbb.2.2
  have lt1 : k ≤ t1.1.length := keeps_len st1.1 lc2
  set d1 := hDivB c2.2 t1.2 t1.1 with hd1
  have sd1 : Keeps k t1.1 d1.1 ∧ k ≤ d1.2 :=
    keeps_writeStep k t1.1 c2.2 _ sc2.2
  have ld1 : k ≤ d1.1.length := keeps_len sd1.1 lt1
  exact ⟨(keeps_trans (keeps_trans (keeps_trans (keeps_trans sbb.1 sc1.1) sc2.1) st1.1) sd1.1), sd1.2⟩

lemma keeps_RSIh (k : ℕ) (column period : ℕ) (adjust : Bool) (st : Store) (h : k ≤ st.length) :
    Keeps k st (RSIh column period adjust st).1 ∧ k ≤ (RSIh column period adjust st).2 := by
  simp only [RSIh]
  set c1 := hClone column st with hc1
  have sc1 : Keeps k st c1.1 ∧ k ≤ c1.2 :=
    keeps_allocStep k st _ h
  have lc1 : k ≤ c1.1.length := keeps_len sc1.1 h
  set up := hDiff c1.2 1 c1.1 with hup
  have sup : Keeps k c1.1 up.1 ∧ k ≤ up.2 :=
    keeps_allocStep k c1.1 _ lc1
  have lup : k ≤ up.1.length := keeps_len sup.1 lc1
  set dn := hClone up.2 up.1 with hdn
  have sdn : Keeps k up.1 dn.1 ∧ k ≤ dn.2 :=
    keeps_allocStep k up.1 _ lup
  have ldn : k ≤ dn.1.length := keeps_len sdn.1 lup
  set u2 := hApply up.2 clampUp dn.1 with hu2
  have su2 : Keeps k dn.1 u2.1 ∧ k ≤ u2.2 :=
    keeps_writeStep k dn.1 up.2 _ sup.2
  have lu2 : k ≤ u2.1.length := keeps_len su2.1 ldn
  set d2 := hApply dn.2 clampDown u2.1 with hd2
  have sd2 : Keeps k u2.1 d2.1 ∧ k ≤ d2.2 :=
    keeps_writeStep k u2.1 dn.2 _ sdn.2
  have ld2 : k ≤ d2.1.length := keeps_len sd2.1 lu2
  set g1 := hEWMMean u2.2 (1 / (period : ℚ)) adjust true d2.1 with hg1
  have sg1 : Keeps k d2.1 g1.1 ∧ k ≤ g1.2 :=
    keeps_allocStep k d2.1 _ ld2
  have lg1 : k ≤ g1.1.length := keeps_len sg1.1 ld2
  set ab := hAbs d2.2 g1.1 with hab
  have sab : Keeps k g1.1 ab.1 ∧ k ≤ ab.2 :=
    keeps_writeStep k g1.1 d2.2 _ sd2.2
  have lab : k ≤ ab.1.length := keeps_len sab.1 lg1
  set o1 := hEWMMean ab.2 (1 / (period : ℚ)) adjust true ab.1 with ho1
  have so1 : Keeps k ab.1 o1.1 ∧ k ≤ o1.2 :=
    keeps_allocStep k ab.1 _ lab
  have lo1 : k ≤ o1.1.length := keeps_len so1.1 lab
  set rs := hDivB g1.2 o1.2 o1.1 with hrs
  have srs : Keeps k o1.1 rs.1 ∧ k ≤ rs.2 :=
    keeps_writeStep k o1.1 g1.2 _ sg1.2
  have lrs : k ≤ rs.1.length := keeps_len srs.1 lo1
  set rf := hFillna rs.2 (FV.fin 0) rs.1 with hrf
  have srf : Keeps k rs.1 rf.1 ∧ k ≤ rf.2 :=
    keeps_writeStep k rs.1 rs.2 _ srs.2
  have lrf : k ≤ rf.1.length := keeps_len srf.1 lrs
  set ap := hApply rf.2 rsiApply rf.1 with hap
  have sap : Keeps k rf.1 ap.1 ∧ k ≤ ap.2 :=
    keeps_writeStep k rf.1 rf.2 _ srf.2
  have lap : k ≤ ap.1.length := keeps_len sap.1 lrf
  exact ⟨(keeps_trans (keeps_trans (keeps_trans (keeps_trans (keeps_trans (keeps_trans (keeps_trans (keeps_trans (keeps_trans (keeps_trans sc1.1 sup.1) sdn.1) su2.1) sd2.1) sg1.1) sab.1) so1.1) srs.1) srf.1) sap.1), sap.2⟩

lemma keeps_CRSIh (k : ℕ) (close period periodUpDown periodRoc : ℕ) (adjust : Bool) (st : Store) (h : k ≤ st.length) :
    Keeps k st (CRSIh close period periodUpDown periodRoc adjust st).1 ∧ k ≤ (CRSIh close period periodUpDown periodRoc adjust st).2 := by
  simp only [CRSIh]
  set c1 := hClone close st with hc1
  have sc1 : Keeps k st c1.1 ∧ k ≤ c1.2 :=
    keeps_allocStep k st _ h
  have lc1 : k ≤ c1.1.length := keeps_len sc1.1 h
  set d1 := hDiff c1.2 1 c1.1 with hd1
  have sd1 : Keeps k c1.1 d1.1 ∧ k ≤ d1.2 :=
    keeps_allocStep k c1.1 _ lc1
  have ld1 : k ≤ d1.1.length := keeps_len sd1.1 lc1
  set ud := hApplyStreak d1.2 d1.1 with hud
  have sud : Keeps k d1.1 ud.1 ∧ k ≤ ud.2 :=
    keeps_writeStep k d1.1 d1.2 _ sd1.2
  have lud : k ≤ ud.1.length := keeps_len sud.1 ld1
  set r1 := RSIh c1.2 period adjust ud.1 with hr1
  have sr1 : Keeps k ud.1 r1.1 ∧ k ≤ r1.2 :=
    keeps_RSIh k c1.2 period adjust ud.1 lud
  have lr1 : k ≤ r1.1.length := keeps_len sr1.1 lud
  set r2 := RSIh ud.2 periodUpDown adjust r1.1 with hr2
  have sr2 : Keeps k r1.1 r2.1 ∧ k ≤ r2.2 :=
    keeps_RSIh k ud.2 periodUpDown adjust r1.1 lr1
  have lr2 : k ≤ r2.1.length := keeps_len sr2.1 lr1
  set ro := ROCh c1.2 periodRoc r2.1 with hro
  have sro : Keeps k r2.1 ro.1 ∧ k ≤ ro.2 :=
    keeps_ROCh k c1.2 periodRoc r2.1 lr2
  have lro : k ≤ ro.1.length := keeps_len sro.1 lr2
  set rf := hFillna ro.2 (FV.fin 0) ro.1 with hrf
  have srf : Keeps k ro.1 rf.1 ∧ k ≤ rf.2 :=
    keeps_writeStep k ro.1 ro.2 _ sro.2
  have lrf : k ≤ rf.1.length := keeps_len srf.1 lro
  set a1 := hAdd r1.2 r2.2 rf.1 with ha1
  have sa1 : Keeps k rf.1 a1.1 ∧ k ≤ a1.2 :=
    keeps_writeStep k rf.1 r1.2 _ sr1.2
  have la1 : k ≤ a1.1.length := keeps_len sa1.1 lrf
  set a2 := hAdd a1.2 rf.2 a1.1 with ha2
  have sa2 : Keeps k a1.1 a2.1 ∧ k ≤ a2.2 :=
    keeps_writeStep k a1.1 a1.2 _ sa1.2
  have la2 : k ≤ a2.1.length := keeps_len sa2.1 la1
  set dv := hDivScalar a2.2 (FV.fin 3) a2.1 with hdv
  have sdv : Keeps k a2.1 dv.1 ∧ k ≤ dv.2 :=
    keeps_writeStep k a2.1 a2.2 _ sa2.2
  have ldv : k ≤ dv.1.length := keeps_len sdv.1 la2
  exact ⟨(keeps_trans (keeps_trans (keeps_trans (keeps_trans (keeps_trans (keeps_trans (keeps_trans (keeps_trans (keeps_trans sc1.1 sd1.1) sud.1) sr1.1) sr2.1) sro.1) srf.1) sa1.1) sa2.1) sdv.1), sdv.2⟩

lemma keeps_VZOh (k : ℕ) (price volume period : ℕ) (adjust : Bool) (st : Store) (h : k ≤ st.length) :
    Keeps k st (VZOh price volume period adjust st).1 ∧ k ≤ (VZOh price volume period adjust st).2 := by
  simp only [VZOh]
  set c1 := hClone price st with hc1
  have sc1 : Keeps k st c1.1 ∧ k ≤ c1.2 :=
    keeps_allocStep k st _ h
  have lc1 : k ≤ c1.1.length := keeps_len sc1.1 h
  set d1 := hDiff c1.2 1 c1.1 with hd1
  have sd1 : Keeps k c1.1 d1.1 ∧ k ≤ d1.2 :=
    keeps_allocStep k c1.1 _ lc1
  have ld1 : k ≤ d1.1.length := keeps_len sd1.1 lc1
  set s1 := hApply d1.2 FV.signv d1.1 with hs1
  have ss1 : Keeps k d1.1 s1.1 ∧ k ≤ s1.2 :=
    keeps_writeStep k d1.1 d1.2 _ sd1.2
  have ls1 : k ≤ s1.1.length := keeps_len ss1.1 ld1
  set v1 := hMul s1.2 volume s1.1 with hv1
  have sv1 : Keeps k s1.1 v1.1 ∧ k ≤ v1.2 :=
    keeps_writeStep k s1.1 s1.2 _ ss1.2
  have lv1 : k ≤ v1.1.length := keeps_len sv1.1 ls1
  set dv := hEWMMean v1.2 (spanToAlpha (period : ℚ)) adjust false v1.1 with hdv
  have sdv : Keeps k v1.1 dv.1 ∧ k ≤ dv.2 :=
    keeps_allocStep k v1.1 _ lv1
  have ldv : k ≤ dv.1.length := keeps_len sdv.1 lv1
  set vc := hClone volume dv.1 with hvc
  have svc : Keeps k dv.1 vc.1 ∧ k ≤ vc.2 :=
    keeps_allocStep k dv.1 _ ldv
  have lvc : k ≤ vc.1.length := keeps_len svc.1 ldv
  set vm := hEWMMean vc.2 (spanToAlpha (period : ℚ)) adjust false vc.1 with hvm
  have svm : Keeps k vc.1 vm.1 ∧ k ≤ vm.2 :=
    keeps_allocStep k vc.1 _ lvc
  have lvm : k ≤ vm.1.length := keeps_len svm.1 lvc
  set m1 := hMulScalar dv.2 (FV.fin 100) vm.1 with hm1
  have sm1 : Keeps k vm.1 m1.1 ∧ k ≤ m1.2 :=
    keeps_writeStep k vm.1 dv.2 _ sdv.2
  have lm1 : k ≤ m1.1.length := keeps_len sm1.1 lvm
  set q1 := hDivB m1.2 vm.2 m1.1 with hq1
  have sq1 : Keeps k m1.1 q1.1 ∧ k ≤ q1.2 :=
    keeps_writeStep k m1.1 m1.2 _ sm1.2
  have lq1 : k ≤ q1.1.length := keeps_len sq1.1 lm1
  exact ⟨(keeps_trans (keeps_trans (keeps_trans (keeps_trans (keeps_trans (keeps_trans (keeps_trans (keeps_trans sc1.1 sd1.1) ss1.1) sv1.1) sdv.1) svc.1) svm.1) sm1.1) sq1.1), sq1.2⟩

lemma keeps_STOCHh (k : ℕ) (high low close period : ℕ) (st : Store) (h : k ≤ st.length) :
    Keeps k st (STOCHh high low close period st).1 ∧ k ≤ (STOCHh high low close period st).2 := by
  simp only [STOCHh]
  set c1 := hClone close st with hc1
  have sc1 : Keeps k st c1.1 ∧ k ≤ c1.2 :=
    keeps_allocStep k st _ h
  have lc1 : k ≤ c1.1.length := keeps_len sc1.1 h
  set o1 := hRollMax high period c1.1 with ho1
  have so1 : Keeps k c1.1 o1.1 ∧ k ≤ o1.2 :=
    keeps_allocStep k c1.1 _ lc1
  have lo1 : k ≤ o1.1.length := keeps_len so1.1 lc1
  set o2 := hRollMin low period o1.1 with ho2
  have so2 : Keeps k o1.1 o2.1 ∧ k ≤ o2.2 :=
    keeps_allocStep k o1.1 _ lo1
  have lo2 : k ≤ o2.1.length := keeps_len so2.1 lo1
  set s1 := hSub c1.2 o2.2 o2.1 with hs1
  have ss1 : Keeps k o2.1 s1.1 ∧ k ≤ s1.2 :=
    keeps_writeStep k o2.1 c1.2 _ sc1.2
  have ls1 : k ≤ s1.1.length := keeps_len ss1.1 lo2
  set t1 := hSub o1.2 o2.2 s1.1 with ht1
  have st1 : Keeps k s1.1 t1.1 ∧ k ≤ t1.2 :=
    keeps_writeStep k s1.1 o1.2 _ so1.2
  have lt1 : k ≤ t1.1.length := keeps_len st1.1 ls1
  set d1 := hDivB s1.2 t1.2 t1.1 with hd1
  have sd1 : Keeps k t1.1 d1.1 ∧ k ≤ d1.2 :=
    keeps_writeStep k t1.1 s1.2 _ ss1.2
  have ld1 : k ≤ d1.1.length := keeps_len sd1.1 lt1
  exact ⟨(keeps_trans (keeps_trans (keeps_trans (keeps_trans (keeps_trans sc1.1 so1.1) so2.1) ss1.1) st1.1) sd1.1), sd1.2⟩

lemma keeps_StochRSIh (k : ℕ) (price rsiPeriod stochPeriod : ℕ) (adjust : Bool) (st : Store) (h : k ≤ st.length) :
    Keeps k st (StochRSIh price rsiPeriod stochPeriod adjust st).1 ∧ k ≤ (StochRSIh price rsiPeriod stochPeriod adjust st).2 := by
  simp only [StochRSIh]
  set r0 := RSIh price rsiPeriod adjust st with hr0
  have sr0 : Keeps k st r0.1 ∧ k ≤ r0.2 :=
    keeps_RSIh k price rsiPeriod adjust st h
  have lr0 : k ≤ r0.1.length := keeps_len sr0.1 h
  set s1 := hSubScalar r0.2 (listMin (sread r0.1 r0.2)) r0.1 with hs1
  have ss1 : Keeps k r0.1 s1.1 ∧ k ≤ s1.2 :=
    keeps_writeStep k r0.1 r0.2 _ sr0.2
  have ls1 : k ≤ s1.1.length := keeps_len ss1.1 lr0
  set s2 := hDivScalar s1.2 (FV.sub (listMax (sread r0.1 r0.2)) (listMin (sread r0.1 r0.2))) s1.1 with hs2
  have ss2 : Keeps k s1.1 s2.1 ∧ k ≤ s2.2 :=
    keeps_writeStep k s1.1 s1.2 _ ss1.2
  have ls2 : k ≤ s2.1.length := keeps_len ss2.1 ls1
  set mn := hRollMean s2.2 stochPeriod s2.1 with hmn
  have smn : Keeps k s2.1 mn.1 ∧ k ≤ mn.2 :=
    keeps_allocStep k s2.1 _ ls2
  have lmn : k ≤ mn.1.length := keeps_len smn.1 ls2
  exact ⟨(keeps_trans (keeps_trans (keeps_trans sr0.1 ss1.1) ss2.1) smn.1), smn.2⟩

lemma keeps_ADLh (k : ℕ) (high low close : ℕ) (st : Store) (h : k ≤ st.length) :
    Keeps k st (ADLh high low close st).1 ∧ k ≤ (ADLh high low close st).2 := by
  simp only [ADLh]
  set a1 := hClone close st with ha1
  have sa1 : Keeps k st a1.1 ∧ k ≤ a1.2 :=
    keeps_allocStep k st _ h
  have la1 : k ≤ a1.1.length := keeps_len sa1.1 h
  set a2 := hSub a1.2 low a1.1 with ha2
  have sa2 : Keeps k a1.1 a2.1 ∧ k ≤ a2.2 :=
    keeps_writeStep k a1.1 a1.2 _ sa1.2
  have la2 : k ≤ a2.1.length := keeps_len sa2.1 la1
  set b1 := hClone high a2.1 with hb1
  have sb1 : Keeps k a2.1 b1.1 ∧ k ≤ b1.2 :=
    keeps_allocStep k a2.1 _ la2
  have lb1 : k ≤ b1.1.length := keeps_len sb1.1 la2
  set b2 := hSub b1.2 close b1.1 with hb2
  have sb2 : Keeps k b1.1 b2.1 ∧ k ≤ b2.2 :=
    keeps_writeStep k b1.1 b1.2 _ sb1.2
  have lb2 : k ≤ b2.1.length := keeps_len sb2.1 lb1
  set c1 := hClone high b2.1 with hc1
  have sc1 : Keeps k b2.1 c1.1 ∧ k ≤ c1.2 :=
    keeps_allocStep k b2.1 _ lb2
  have lc1 : k ≤ c1.1.length := keeps_len sc1.1 lb2
  set c2 := hSub c1.2 low c1.1 with hc2
  have sc2 : Keeps k c1.1 c2.1 ∧ k ≤ c2.2 :=
    keeps_writeStep k c1.1 c1.2 _ sc1.2
  have lc2 : k ≤ c2.1.length := keeps_len sc2.1 lc1
  set m1 := hSub a2.2 b2.2 c2.1 with hm1
  have sm1 : Keeps k c2.1 m1.1 ∧ k ≤ m1.2 :=
    keeps_writeStep k c2.1 a2.2 _ sa2.2
  have lm1 : k ≤ m1.1.length := keeps_len sm1.1 lc2
  set m2 := hDivB m1.2 c2.2 m1.1 with hm2
  have sm2 : Keeps k m1.1 m2.1 ∧ k ≤ m2.2 :=
    keeps_writeStep k m1.1 m1.2 _ sm1.2
  have lm2 : k ≤ m2.1.length := keeps_len sm2.1 lm1
  set cs := hCumsum m2.2 m2.1 with hcs
  have scs : Keeps k m2.1 cs.1 ∧ k ≤ cs.2 :=
    keeps_allocStep k m2.1 _ lm2
  have lcs : k ≤ cs.1.length := keeps_len scs.1 lm2
  exact ⟨(keeps_trans (keeps_trans (keeps_trans (keeps_trans (keeps_trans (keeps_trans (keeps_trans (keeps_trans sa1.1 sa2.1) sb1.1) sb2.1) sc1.1) sc2.1) sm1.1) sm2.1) scs.1), scs.2⟩

lemma keeps_CHAIKINh (k : ℕ) (high low close : ℕ) (adjust : Bool) (st : Store) (h : k ≤ st.length) :
    Keeps k st (CHAIKINh high low close adjust st).1 ∧ k ≤ (CHAIKINh high low close adjust st).2 := by
  simp only [CHAIKINh]
  set ad := ADLh high low close st with had
  have sad : Keeps k st ad.1 ∧ k ≤ ad.2 :=
    keeps_ADLh k high low close st h
  have lad : k ≤ ad.1.length := keeps_len sad.1 h
  set sh := hEWMMean ad.2 (spanToAlpha 3) adjust false ad.1 with hsh
  have ssh : Keeps k ad.1 sh.1 ∧ k ≤ sh.2 :=
    keeps_allocStep k ad.1 _ lad
  have lsh : k ≤ sh.1.length := keeps_len ssh.1 lad
  set lg := hEWMMean ad.2 (spanToAlpha 10) adjust false sh.1 with hlg
  have slg : Keeps k sh.1 lg.1 ∧ k ≤ lg.2 :=
    keeps_allocStep k sh.1 _ lsh
  have llg : k ≤ lg.1.length := keeps_len slg.1 lsh
  set df := hSub sh.2 lg.2 lg.1 with hdf
  have sdf : Keeps k lg.1 df.1 ∧ k ≤ df.2 :=
    keeps_writeStep k lg.1 sh.2 _ ssh.2
  have ldf : k ≤ df.1.length := keeps_len sdf.1 llg
  exact ⟨(keeps_trans (keeps_trans (keeps_trans sad.1 ssh.1) slg.1) sdf.1), sdf.2⟩

lemma keeps_PSARh (k high low close : ℕ) (iaf maxaf : ℚ) (st : Store)
    (h : k ≤ st.length) :
    Keeps k st (PSARh high low close iaf maxaf st).1 ∧
      k ≤ (PSARh high low close iaf maxaf st).2.1 ∧
      k ≤ (PSARh high low close iaf maxaf st).2.2.1 ∧
      k ≤ (PSARh high low close iaf maxaf st).2.2.2 := by
  simp only [PSARh]
  set w := psarValsF (sread st high) (sread st low) (sread st close) iaf maxaf with hw
  set p1 := salloc st w.1 with hp1
  have s1 : Keeps k st p1.1 ∧ k ≤ p1.2 := keeps_allocStep k st _ h
  have l1 : k ≤ p1.1.length := keeps_len s1.1 h
  set p2 := salloc p1.1 w.2.1 with hp2
  have s2 : Keeps k p1.1 p2.1 ∧ k ≤ p2.2 := keeps_allocStep k p1.1 _ l1
  have l2 : k ≤ p2.1.length := keeps_len s2.1 l1
  set p3 := salloc p2.1 w.2.2 with hp3
  have s3 : Keeps k p2.1 p3.1 ∧ k ≤ p3.2 := keeps_allocStep k p2.1 _ l2
  exact ⟨keeps_trans (keeps_trans s1.1 s2.1) s3.1, s1.2, s2.2, s3.2⟩

/-- C9: no exported indicator call mutates its caller-owned input
buffers, and every result is a newly allocated buffer (its handle is
distinct from every input handle): for each of SMA, ROC, KST, FISH,
MACD, BBANDS, PercentB, RSI, CRSI, VZO, STOCH, StochRSI, ADL, CHAIKIN
and PSAR, running the call on a store holding exactly the inputs leaves
every input buffer's contents unchanged. -/
theorem indicators_preserve_inputs :
    (∀ (column : List FV) (period : ℕ),
      sread (SMAh 0 period [column]).1 0 = column ∧
        (SMAh 0 period [column]).2 ≠ 0) ∧
    (∀ (column : List FV) (period : ℕ),
      sread (ROCh 0 period [column]).1 0 = column ∧
        (ROCh 0 period [column]).2 ≠ 0) ∧
    (∀ (column : List FV) (r1 r2 r3 r4 : ℕ),
      sread (KSTh 0 r1 r2 r3 r4 [column]).1 0 = column ∧
        (KSTh 0 r1 r2 r3 r4 [column]).2.1 ≠ 0 ∧
        (KSTh 0 r1 r2 r3 r4 [column]).2.2 ≠ 0) ∧
    (∀ (rlog : ℚ → ℚ) (low high : List FV) (period : ℕ) (adjust : Bool),
      sread (FISHh rlog 0 1 period adjust [low, high]).1 0 = low ∧
        sread (FISHh rlog 0 1 period adjust [low, high]).1 1 = high ∧
        (FISHh rlog 0 1 period adjust [low, high]).2 ≠ 0 ∧
        (FISHh rlog 0 1 period adjust [low, high]).2 ≠ 1) ∧
    (∀ (column : List FV) (periodFast periodSlow signal : ℚ) (adjust : Bool),
      sread (MACDh 0 periodFast periodSlow signal adjust [column]).1 0 = column ∧
        (MACDh 0 periodFast periodSlow signal adjust [column]).2.1 ≠ 0 ∧
        (MACDh 0 periodFast periodSlow signal adjust [column]).2.2 ≠ 0) ∧
    (∀ (column ma : List FV) (period : ℕ) (stdMultiplier : ℚ),
      sread (BBANDSh 0 1 period stdMultiplier [column, ma]).1 0 = column ∧
        sread (BBANDSh 0 1 period stdMultiplier [column, ma]).1 1 = ma ∧
        (BBANDSh 0 1 period stdMultiplier [column, ma]).2.1 ≠ 0 ∧
        (BBANDSh 0 1 period stdMultiplier [column, ma]).2.1 ≠ 1 ∧
        (BBANDSh 0 1 period stdMultiplier [column, ma]).2.2 ≠ 0 ∧
        (BBANDSh 0 1 period stdMultiplier [column, ma]).2.2 ≠ 1) ∧
    (∀ (column ma : List FV) (period : ℕ) (stdMultiplier : ℚ),
      sread (PercentBh 0 1 period stdMultiplier [column, ma]).1 0 = column ∧
        sread (PercentBh 0 1 period stdMultiplier [column, ma]).1 1 = ma ∧
        (PercentBh 0 1 period stdMultiplier [column, ma]).2 ≠ 0 ∧
        (PercentBh 0 1 period stdMultiplier [column, ma]).2 ≠ 1) ∧
    (∀ (column : List FV) (period : ℕ) (adjust : Bool),
      sread (RSIh 0 period adjust [column]).1 0 = column ∧
        (RSIh 0 period adjust [column]).2 ≠ 0) ∧
    (∀ (close : List FV) (period periodUpDown periodRoc : ℕ) (adjust : Bool),
      sread (CRSIh 0 period periodUpDown periodRoc adjust [close]).1 0 = close ∧
        (CRSIh 0 period periodUpDown periodRoc adjust [close]).2 ≠ 0) ∧
    (∀ (price volume : List FV) (period : ℕ) (adjust : Bool),
      sread (VZOh 0 1 period adjust [price, volume]).1 0 = price ∧
        sread (VZOh 0 1 period adjust [price, volume]).1 1 = volume ∧
        (VZOh 0 1 period adjust [price, volume]).2 ≠ 0 ∧
        (VZOh 0 1 period adjust [price, volume]).2 ≠ 1) ∧
    (∀ (high low close : List FV) (period : ℕ),
      sread (STOCHh 0 1 2 period [high, low, close]).1 0 = high ∧
        sread (STOCHh 0 1 2 period [high, low, close]).1 1 = low ∧
        sread (STOCHh 0 1 2 period [high, low, close]).1 2 = close ∧
        (STOCHh 0 1 2 period [high, low, close]).2 ≠ 0 ∧
        (STOCHh 0 1 2 period [high, low, close]).2 ≠ 1 ∧
        (STOCHh 0 1 2 period [high, low, close]).2 ≠ 2) ∧
    (∀ (price : List FV) (rsiPeriod stochPeriod : ℕ) (adjust : Bool),
      sread (StochRSIh 0 rsiPeriod stochPeriod adjust [price]).1 0 = price ∧
        (StochRSIh 0 rsiPeriod stochPeriod adjust [price]).2 ≠ 0) ∧
    (∀ (high low close : List FV),
      sread (ADLh 0 1 2 [high, low, close]).1 0 = high ∧
        sread (ADLh 0 1 2 [high, low, close]).1 1 = low ∧
        sread (ADLh 0 1 2 [high, low, close]).1 2 = close ∧
        (ADLh 0 1 2 [high, low, close]).2 ≠ 0 ∧
        (ADLh 0 1 2 [high, low, close]).2 ≠ 1 ∧
        (ADLh 0 1 2 [high, low, close]).2 ≠ 2) ∧
    (∀ (high low close : List FV) (adjust : Bool),
      sread (CHAIKINh 0 1 2 adjust [high, low, close]).1 0 = high ∧
        sread (CHAIKINh 0 1 2 adjust [high, low, close]).1 1 = low ∧
        sread (CHAIKINh 0 1 2 adjust [high, low, close]).1 2 = close ∧
        (CHAIKINh 0 1 2 adjust [high, low, close]).2 ≠ 0 ∧
        (CHAIKINh 0 1 2 adjust [high, low, close]).2 ≠ 1 ∧
        (CHAIKINh 0 1 2 adjust [high, low, close]).2 ≠ 2) ∧
    (∀ (high low close : List FV) (iaf maxaf : ℚ),
      sread (PSARh 0 1 2 iaf maxaf [high, low, close]).1 0 = high ∧
        sread (PSARh 0 1 2 iaf maxaf [high, low, close]).1 1 = low ∧
        sread (PSARh 0 1 2 iaf maxaf [high, low, close]).1 2 = close ∧
        (PSARh 0 1 2 iaf maxaf [high, low, close]).2.1 ≠ 0 ∧
        (PSARh 0 1 2 iaf maxaf [high, low, close]).2.1 ≠ 1 ∧
        (PSARh 0 1 2 iaf maxaf [high, low, close]).2.1 ≠ 2 ∧
        (PSARh 0 1 2 iaf maxaf [high, low, close]).2.2.1 ≠ 0 ∧
        (PSARh 0 1 2 iaf maxaf [high, low, close]).2.2.1 ≠ 1 ∧
        (PSARh 0 1 2 iaf maxaf [high, low, close]).2.2.1 ≠ 2 ∧
        (PSARh 0 1 2 iaf maxaf [high, low, close]).2.2.2 ≠ 0 ∧
        (PSARh 0 1 2 iaf maxaf [high, low, close]).2.2.2 ≠ 1 ∧
        (PSARh 0 1 2 iaf maxaf [high, low, close]).2.2.2 ≠ 2) := by
  refine ⟨?_, ?_, ?_, ?_, ?_, ?_, ?_, ?_, ?_, ?_, ?_, ?_, ?_, ?_, ?_⟩
  · intro column period
    obtain ⟨K, H⟩ := keeps_SMAh 1 0 period [column] (by norm_num)
    exact ⟨(K.1 0 (by norm_num)).trans rfl, by have := H; omega⟩
  · intro column period
    obtain ⟨K, H⟩ := keeps_ROCh 1 0 period [column] (by norm_num)
    exact ⟨(K.1 0 (by norm_num)).trans rfl, by have := H; omega⟩
  · intro column r1 r2 r3 r4
    obtain ⟨K, H⟩ := keeps_KSTh 1 0 r1 r2 r3 r4 [column] (by norm_num)
    exact ⟨(K.1 0 (by norm_num)).trans rfl, by have := H.1; omega, by have := H.2; omega⟩
  · intro rlog low high period adjust
    obtain ⟨K, H⟩ := keeps_FISHh 2 rlog 0 1 period adjust [low, high] (by norm_num)
    exact ⟨(K.1 0 (by norm_num)).trans rfl, (K.1 1 (by norm_num)).trans rfl, by have := H; omega, by have := H; omega⟩
  · intro column periodFast periodSlow signal adjust
    obtain ⟨K, H⟩ := keeps_MACDh 1 0 periodFast periodSlow signal adjust [column] (by norm_num)
    exact ⟨(K.1 0 (by norm_num)).trans rfl, by have := H.1; omega, by have := H.2; omega⟩
  · intro column ma period stdMultiplier
    obtain ⟨K, H⟩ := keeps_BBANDSh 2 0 1 period stdMultiplier [column, ma] (by norm_num)
    exact ⟨(K.1 0 (by norm_num)).trans rfl, (K.1 1 (by norm_num)).trans rfl, by have := H.1; omega, by have := H.1; omega, by have := H.2; omega, by have := H.2; omega⟩
  · intro column ma period stdMultiplier
    obtain ⟨K, H⟩ := keeps_PercentBh 2 0 1 period stdMultiplier [column, ma] (by norm_num)
    exact ⟨(K.1 0 (by norm_num)).trans rfl, (K.1 1 (by norm_num)).trans rfl, by have := H; omega, by have := H; omega⟩
  · intro column period adjust
    obtain ⟨K, H⟩ := keeps_RSIh 1 0 period adjust [column] (by norm_num)
    exact ⟨(K.1 0 (by norm_num)).trans rfl, by have := H; omega⟩
  · intro close period periodUpDown periodRoc adjust
    obtain ⟨K, H⟩ := keeps_CRSIh 1 0 period periodUpDown periodRoc adjust [close] (by norm_num)
    exact ⟨(K.1 0 (by norm_num)).trans rfl, by have := H; omega⟩
  · intro price volume period adjust
    obtain ⟨K, H⟩ := keeps_VZOh 2 0 1 period adjust [price, volume] (by norm_num)
    exact ⟨(K.1 0 (by norm_num)).trans rfl, (K.1 1 (by norm_num)).trans rfl, by have := H; omega, by have := H; omega⟩
  · intro high low close period
    obtain ⟨K, H⟩ := keeps_STOCHh 3 0 1 2 period [high, low, close] (by norm_num)
    exact ⟨(K.1 0 (by norm_num)).trans rfl, (K.1 1 (by norm_num)).trans rfl, (K.1 2 (by norm_num)).trans rfl, by have := H; omega, by have := H; omega, by have := H; omega⟩
  · intro price rsiPeriod stochPeriod adjust
    obtain ⟨K, H⟩ := keeps_StochRSIh 1 0 rsiPeriod stochPeriod adjust [price] (by norm_num)
    exact ⟨(K.1 0 (by norm_num)).trans rfl, by have := H; omega⟩
  · intro high low close
    obtain ⟨K, H⟩ := keeps_ADLh 3 0 1 2 [high, low, close] (by norm_num)
    exact ⟨(K.1 0 (by norm_num)).trans rfl, (K.1 1 (by norm_num)).trans rfl, (K.1 2 (by norm_num)).trans rfl, by have := H; omega, by have := H; omega, by have := H; omega⟩
  · intro high low close adjust
    obtain ⟨K, H⟩ := keeps_CHAIKINh 3 0 1 2 adjust [high, low, close] (by norm_num)
    exact ⟨(K.1 0 (by norm_num)).trans rfl, (K.1 1 (by norm_num)).trans rfl, (K.1 2 (by norm_num)).trans rfl, by have := H; omega, by have := H; omega, by have := H; omega⟩
  · intro high low close iaf maxaf
    obtain ⟨K, H1, H2, H3⟩ := keeps_PSARh 3 0 1 2 iaf maxaf [high, low, close] (by norm_num)
    exact ⟨(K.1 0 (by norm_num)).trans rfl, (K.1 1 (by norm_num)).trans rfl,
      (K.1 2 (by norm_num)).trans rfl,
      by omega, by omega, by omega, by omega, by omega, by omega, by omega, by omega, by omega⟩

end Fta
